import Mathlib

/-!
# Stack-trace instrumentation layer of `tools/leveldb_stacktrace.cc`

A shallow embedding of the capture policy (`TraceConfig`), the stack capturer
(`StackTrace::Capture`, both platform branches), the trace budget and sink
(`TracingEnv::ShouldTrace`, `TracingEnv::Trace`), the decorated environment
(`TracingEnv::New*File`) and the three decorated file handles, followed by the
properties established about them.

Conventions of the embedding:

* C++ `int` values are mathematical integers; where the source can leave the
  32-bit range (the atomic budget counter) the result is wrapped explicitly by
  `wrapInt32`.
* Mutable objects are passed explicitly: an operation takes the current value
  of every object it may modify and returns the new one.
* Text written to `std::cerr` is a list of strings, one entry per `<<` of a
  complete record.
* A call ends in one of three ways (`Completion`): it returns; it is left by
  the `std::bad_alloc` that the construction of the frame buffer
  `std::vector<void*> frames(stack_depth)` throws when the allocator refuses
  the request (nothing in the tool catches it, so it propagates to the caller);
  or it has undefined behaviour (an out-of-bounds read of the frame buffer,
  signed overflow, a null or dangling pointer).  The other allocations of the
  layer (strings, wrappers) are small and independent of the input and are
  taken to succeed.
-/

namespace leveldb_stacktrace

/-! ## Capture policy -/

/-- The struct `TraceConfig` with the default member initialisers of the source. -/
structure TraceConfig where
  trace_open : Bool := true
  trace_reads : Bool := true
  trace_writes : Bool := true
  trace_sync : Bool := false
  symbolize : Bool := true
  max_traces : Int := 200
  stack_depth : Int := 64

/-- Membership in the range of a C++ `int` (32-bit two's complement). -/
def isInt32 (x : Int) : Prop := -2147483648 ≤ x ∧ x ≤ 2147483647

instance (x : Int) : Decidable (isInt32 x) := by
  unfold isInt32; exact inferInstance

/-- Reduction of an integer to the 32-bit two's complement range: the value an
`std::atomic<int>` holds after an arithmetic operation whose mathematical
result is `x` (atomic arithmetic on signed integers wraps, it is not undefined). -/
def wrapInt32 (x : Int) : Int := (x + 2147483648) % 4294967296 - 2147483648

/-! ## Stream formatting helpers -/

/-- The text produced by `out << std::setw(2) << std::setfill('0') << v` for an
`int` `v`: the decimal rendering, padded on the left with `'0'` to width two. -/
def setw2fill0 (v : Int) : String :=
  String.mk (List.replicate (2 - (toString v).length) '0') ++ toString v

/-- The text produced by `out << "0x" << std::hex << address` for an unsigned
64-bit `address`. -/
def hexAddress (address : Nat) : String :=
  "0x" ++ String.mk (Nat.toDigits 16 address)

/-- Element `i` of a C array or `std::vector` indexed by an `int`; `none` when
the index is outside the object (undefined behaviour in the source). -/
def arrayAt {α : Type} (xs : List α) (i : Int) : Option α :=
  if 0 ≤ i then xs.get? i.toNat else none

/-- The value of `static_cast<USHORT>(v)` for an `int` `v`. -/
def toUSHORT (v : Int) : Nat := (v % 65536).toNat

/-! ## Stack capturer -/

/-- What the `<execinfo.h>` calls of the non-Windows branch produce at one call
site: `captured` is the return value of `backtrace(frames.data(), stack_depth)`,
`frames` the contents of the frame buffer afterwards, `symbols` the array
returned by `backtrace_symbols(frames.data(), captured)` (`none` for a null
pointer) and `ptrText` the implementation-defined rendering of a `void*` by
`operator<<`.  Before them comes the allocator: `allocates n` tells whether the
construction `std::vector<void*> frames(n)` of the frame buffer succeeds (when
it does not, `std::bad_alloc` is thrown and the library is never called).  The
two proof fields are the contract of the library: the entries counted by
`captured` exist in the buffer and in the symbol array. -/
structure ExecinfoWalk where
  allocates : Int → Bool
  captured : Int
  frames : List Nat
  symbols : Option (List String)
  ptrText : Nat → String
  captured_le : captured ≤ frames.length
  symbols_len : ∀ syms, symbols = some syms → captured ≤ syms.length

/-- What the `<dbghelp.h>` calls of the Windows branch produce at one call site:
`captured` is the `USHORT` returned by `CaptureStackBackTrace`, `frames` the
frame buffer afterwards, `SymFromAddr a` the symbol name when the lookup of
address `a` succeeds, and `SymGetLineFromAddr64 a` the `FileName` (possibly
null) and `LineNumber` when the line lookup succeeds.  Before them comes the
allocator: `allocates n` tells whether the construction
`std::vector<void*> frames(n)` of the frame buffer succeeds. -/
structure DbgHelpWalk where
  allocates : Int → Bool
  captured : Nat
  frames : List Nat
  SymFromAddr : Nat → Option String
  SymGetLineFromAddr64 : Nat → Option (Option String × Nat)
  captured_le : captured ≤ frames.length
  captured_lt : captured < 65536

/-- The platform the tool is compiled for (`#if defined(_WIN32)`), together
with the answers of the allocator and of that platform's stack-walking library. -/
inductive StackOracle where
  | posix (p : ExecinfoWalk)
  | win32 (w : DbgHelpWalk)

/-- How a call ends: it returns `a`; or `std::bad_alloc` leaves it, with `w` the
state of the objects it had modified by then; or its behaviour is undefined. -/
inductive Completion (α ω : Type) where
  | returned (a : α)
  | threw (w : ω)
  | undefined
  deriving DecidableEq, Repr

/-- The value a call returned, if it returned. -/
def Completion.result {α ω : Type} : Completion α ω → Option α
  | Completion.returned a => some a
  | Completion.threw _ => none
  | Completion.undefined => none

/-- Calls into the platform's stack-walking library, with their size arguments. -/
inductive LibCall where
  | backtrace (size : Int)
  | backtrace_symbols (size : Int)
  | CaptureStackBackTrace (size : Int)
  | SymFromAddr (address : Nat)
  | SymGetLineFromAddr64 (address : Nat)
  deriving DecidableEq, Repr

/-- Result of `StackTrace::Capture`: the returned text and the library calls made. -/
structure Captured where
  text : String
  calls : List LibCall
  deriving DecidableEq, Repr

/-- The loop `for (int i = skip_frames; i < captured; ++i) out << "  #" <<
setw(2) << setfill('0') << (i - skip_frames) << " " << cell[i] << "\n";` of the
non-Windows branch, where `cell i` is `frames[i]` rendered as a pointer or
`symbols[i]`.  `fuel` bounds the number of iterations; running out of fuel is
`none`, as is a read outside the array. -/
def StackTrace.listFrames (skip_frames captured : Int) (cell : Int → Option String) :
    Nat → Int → String → Option String
  | 0, _, _ => none
  | fuel + 1, i, out =>
    if i < captured then
      match cell i with
      | none => none
      | some c =>
        StackTrace.listFrames skip_frames captured cell fuel (i + 1)
          (out ++ "  #" ++ setw2fill0 (i - skip_frames) ++ " " ++ c ++ "\n")
    else some out

/-- The non-Windows branch of `StackTrace::Capture` (after the depth check):
the frame buffer is constructed first, then the stack is walked. -/
def StackTrace.CapturePosix (cfg : TraceConfig) (skip_frames : Int) (p : ExecinfoWalk) :
    Completion Captured Unit :=
  if !p.allocates cfg.stack_depth then Completion.threw ()
  else if p.captured ≤ 0 then
    Completion.returned ⟨"", [LibCall.backtrace cfg.stack_depth]⟩
  else if !cfg.symbolize then
    match StackTrace.listFrames skip_frames p.captured
        (fun i => (arrayAt p.frames i).map p.ptrText)
        ((p.captured - skip_frames).toNat + 1) skip_frames "" with
    | none => Completion.undefined
    | some t => Completion.returned ⟨t, [LibCall.backtrace cfg.stack_depth]⟩
  else
    match p.symbols with
    | none =>
      Completion.returned
        ⟨"", [LibCall.backtrace cfg.stack_depth, LibCall.backtrace_symbols p.captured]⟩
    | some symbols =>
      match StackTrace.listFrames skip_frames p.captured (arrayAt symbols)
          ((p.captured - skip_frames).toNat + 1) skip_frames "" with
      | none => Completion.undefined
      | some t =>
        Completion.returned
          ⟨t, [LibCall.backtrace cfg.stack_depth, LibCall.backtrace_symbols p.captured]⟩

/-- The loop of the Windows branch, `for (USHORT i = static_cast<USHORT>(skip_frames);
i < captured; ++i)`: every frame prints its index and its address, and with
`symbolize` also the symbol name and the `(file:line)` suffix when the two
lookups succeed.  `fuel` bounds the number of iterations.  The one-time
`SymInitialize` under `std::call_once` produces no text and is not recorded. -/
def StackTrace.listFramesWin32 (cfg : TraceConfig) (skip_frames : Int) (w : DbgHelpWalk) :
    Nat → Nat → Captured → Option Captured
  | 0, _, _ => none
  | fuel + 1, i, out =>
    if i < w.captured then
      match w.frames.get? i with
      | none => none
      | some address =>
        if isInt32 ((i : Int) - skip_frames) then
          let head := out.text ++ "  #" ++ setw2fill0 ((i : Int) - skip_frames) ++ " "
            ++ hexAddress address
          if !cfg.symbolize then
            StackTrace.listFramesWin32 cfg skip_frames w fuel (i + 1) ⟨head ++ "\n", out.calls⟩
          else
            let named := match w.SymFromAddr address with
              | some name => head ++ " " ++ name
              | none => head
            let lined := match w.SymGetLineFromAddr64 address with
              | some (some file, line) => named ++ " (" ++ file ++ ":" ++ toString line ++ ")"
              | _ => named
            StackTrace.listFramesWin32 cfg skip_frames w fuel (i + 1)
              ⟨lined ++ "\n",
               out.calls ++ [LibCall.SymFromAddr address, LibCall.SymGetLineFromAddr64 address]⟩
        else none
    else some out

/-- The Windows branch of `StackTrace::Capture` (after the depth check): the
frame buffer is constructed first, then the stack is walked. -/
def StackTrace.CaptureWin32 (cfg : TraceConfig) (skip_frames : Int) (w : DbgHelpWalk) :
    Completion Captured Unit :=
  if !w.allocates cfg.stack_depth then Completion.threw ()
  else
    match StackTrace.listFramesWin32 cfg skip_frames w (w.captured + 1)
        (toUSHORT skip_frames) ⟨"", [LibCall.CaptureStackBackTrace cfg.stack_depth]⟩ with
    | none => Completion.undefined
    | some c => Completion.returned c

/-- The function `StackTrace::Capture(cfg, skip_frames)`. -/
def StackTrace.Capture (cfg : TraceConfig) (skip_frames : Int) (o : StackOracle) :
    Completion Captured Unit :=
  if cfg.stack_depth ≤ 0 then Completion.returned ⟨"", []⟩
  else
    match o with
    | StackOracle.win32 w => StackTrace.CaptureWin32 cfg skip_frames w
    | StackOracle.posix p => StackTrace.CapturePosix cfg skip_frames p

/-! ## The wrapped abstraction (`leveldb/status.h`, `leveldb/slice.h`, `leveldb/env.h`) -/

/-- Modelled from the spec: `leveldb::Status` is declared in `leveldb/status.h`,
which is not part of the tool's source.  The tool uses a status only through
`ok()` and `ToString()`; the spec calls it "a distinguishable success/failure
outcome".  A status is therefore its success flag and its printed form. -/
structure Status where
  ok : Bool
  ToString : String
  deriving DecidableEq, Repr

/-- Modelled from the spec: `leveldb::Slice` (`leveldb/slice.h`), "the bytes
read": a sequence of bytes whose `size()` is its length. -/
abbrev Slice := List Nat

/-- The method `Slice::size()`. -/
def Slice.size (data : Slice) : Nat := data.length

/-- Modelled from the spec: the capability set `leveldb::SequentialFile`
("read-n-bytes, skip-n-bytes").  `σ` is the state of everything the delegate
may touch (the file system).  `Read n result scratch` receives the current
contents of `*result` and of the `scratch` buffer and returns the status and
their new contents. -/
structure SequentialFile (σ : Type) where
  Read : Nat → Slice → List Nat → σ → Status × Slice × List Nat × σ
  Skip : Nat → σ → Status × σ

/-- Modelled from the spec: the capability set `leveldb::RandomAccessFile`
("read-n-bytes-at-offset"). -/
structure RandomAccessFile (σ : Type) where
  Read : Nat → Nat → Slice → List Nat → σ → Status × Slice × List Nat × σ

/-- Modelled from the spec: the capability set `leveldb::WritableFile`
("append-bytes, close, flush, sync"). -/
structure WritableFile (σ : Type) where
  Append : Slice → σ → Status × σ
  Close : σ → Status × σ
  Flush : σ → Status × σ
  Sync : σ → Status × σ

/-- Modelled from the spec: the file-creation operations of `leveldb::Env`, the
delegate factory.  Each returns the status and the value of the handle pointer
`base` after the call (`none` is `nullptr`, the value `base` has before it). -/
structure Env (σ : Type) where
  NewSequentialFile : String → σ → Status × Option (SequentialFile σ) × σ
  NewRandomAccessFile : String → σ → Status × Option (RandomAccessFile σ) × σ
  NewWritableFile : String → σ → Status × Option (WritableFile σ) × σ
  NewAppendableFile : String → σ → Status × Option (WritableFile σ) × σ

/-! ## Decorated handles and environment: data -/

/-- The members of `TracingSequentialFile`.  `target_` is the delegate pointer
(`none` when null) and `env_` the address of the owning `TracingEnv`. -/
structure TracingSequentialFile (σ : Type) where
  filename_ : String
  target_ : Option (SequentialFile σ)
  env_ : Nat

/-- The members of `TracingRandomAccessFile`. -/
structure TracingRandomAccessFile (σ : Type) where
  filename_ : String
  target_ : Option (RandomAccessFile σ)
  env_ : Nat

/-- The members of `TracingWritableFile`. -/
structure TracingWritableFile (σ : Type) where
  filename_ : String
  target_ : Option (WritableFile σ)
  env_ : Nat

/-- The members of `TracingEnv`: the wrapped environment `target()`, the policy
`cfg_` and the atomic counter `remaining_traces_`; `this_` is the address of the
object, the value handles keep in `env_`. -/
structure TracingEnv (σ : Type) where
  this_ : Nat
  target : Env σ
  cfg_ : TraceConfig
  remaining_traces_ : Int

/-- The constructor `TracingEnv(target, cfg)`: the counter starts at `cfg.max_traces`. -/
def TracingEnv.new {σ : Type} (this_ : Nat) (target : Env σ) (cfg : TraceConfig) :
    TracingEnv σ :=
  { this_ := this_, target := target, cfg_ := cfg, remaining_traces_ := cfg.max_traces }

/-- Everything an operation of the layer can read or modify: the one
`TracingEnv` of the process, the text written so far to `std::cerr` (one entry
per write of a record) and the state `fs` behind the delegates. -/
structure World (σ : Type) where
  env : TracingEnv σ
  cerr : List String
  fs : σ

/-- Dereference of a handle's `env_` pointer; `none` when it does not point to
the environment. -/
def World.deref {σ : Type} (w : World σ) (env_ : Nat) : Option (TracingEnv σ) :=
  if env_ = w.env.this_ then some w.env else none

/-! ## Trace budget and sink -/

/-- The method `TracingEnv::ShouldTrace()`: `remaining_traces_.fetch_sub(1) > 0`.
The first component is the returned flag, the second the object afterwards. -/
def TracingEnv.ShouldTrace {σ : Type} (e : TracingEnv σ) : Bool × TracingEnv σ :=
  (decide (e.remaining_traces_ > 0),
   { e with remaining_traces_ := wrapInt32 (e.remaining_traces_ - 1) })

/-- The first line of a record, as `TracingEnv::Trace` writes it to `out`. -/
def TracingEnv.tagLine (op : String) (filename : String) (n : Nat) (status : Status) :
    String :=
  let out := "[leveldb-stack] " ++ op ++ " file=" ++ filename
  let out := if n != 0 then out ++ " n=" ++ toString n else out
  out ++ " status=" ++ status.ToString ++ "\n"

/-- The method `TracingEnv::Trace(op, filename, n, status, skip_frames)`, on the
environment and `std::cerr`.  When the capture throws, the counter has been
decremented and nothing has been written. -/
def TracingEnv.Trace {σ : Type} (e : TracingEnv σ) (cerr : List String) (o : StackOracle)
    (op : String) (filename : String) (n : Nat) (status : Status) (skip_frames : Int) :
    Completion (TracingEnv σ × List String) (TracingEnv σ × List String) :=
  let r := e.ShouldTrace
  if !r.1 then Completion.returned (r.2, cerr)
  else
    let out := TracingEnv.tagLine op filename n status
    if e.cfg_.stack_depth > 0 then
      match StackTrace.Capture e.cfg_ skip_frames o with
      | Completion.undefined => Completion.undefined
      | Completion.threw _ => Completion.threw (r.2, cerr)
      | Completion.returned c => Completion.returned (r.2, cerr ++ [out ++ c.text])
    else Completion.returned (r.2, cerr ++ [out])

/-! ## Decorated environment: the four open operations

Each takes the current contents of `*result` and returns the status together
with the new contents of `*result`.  When the trace throws, `*result` has not
been written: the state left behind holds its previous contents. -/

/-- The method `TracingEnv::NewSequentialFile(fname, result)`. -/
def TracingEnv.NewSequentialFile {σ : Type} (fname : String)
    (result : Option (TracingSequentialFile σ)) (o : StackOracle) (w : World σ) :
    Completion ((Status × Option (TracingSequentialFile σ)) × World σ)
      (Option (TracingSequentialFile σ) × World σ) :=
  match w.env.target.NewSequentialFile fname w.fs with
  | (s, base, fs) =>
    if !s.ok then Completion.returned ((s, result), { w with fs := fs })
    else if w.env.cfg_.trace_open then
      match w.env.Trace w.cerr o "open_seq" fname 0 s 2 with
      | Completion.undefined => Completion.undefined
      | Completion.threw (env, cerr) =>
        Completion.threw (result, { env := env, cerr := cerr, fs := fs })
      | Completion.returned (env, cerr) =>
        Completion.returned
          ((s, some ⟨fname, base, w.env.this_⟩), { env := env, cerr := cerr, fs := fs })
    else Completion.returned ((s, some ⟨fname, base, w.env.this_⟩), { w with fs := fs })

/-- The method `TracingEnv::NewRandomAccessFile(fname, result)`. -/
def TracingEnv.NewRandomAccessFile {σ : Type} (fname : String)
    (result : Option (TracingRandomAccessFile σ)) (o : StackOracle) (w : World σ) :
    Completion ((Status × Option (TracingRandomAccessFile σ)) × World σ)
      (Option (TracingRandomAccessFile σ) × World σ) :=
  match w.env.target.NewRandomAccessFile fname w.fs with
  | (s, base, fs) =>
    if !s.ok then Completion.returned ((s, result), { w with fs := fs })
    else if w.env.cfg_.trace_open then
      match w.env.Trace w.cerr o "open_rand" fname 0 s 2 with
      | Completion.undefined => Completion.undefined
      | Completion.threw (env, cerr) =>
        Completion.threw (result, { env := env, cerr := cerr, fs := fs })
      | Completion.returned (env, cerr) =>
        Completion.returned
          ((s, some ⟨fname, base, w.env.this_⟩), { env := env, cerr := cerr, fs := fs })
    else Completion.returned ((s, some ⟨fname, base, w.env.this_⟩), { w with fs := fs })

/-- The method `TracingEnv::NewWritableFile(fname, result)`. -/
def TracingEnv.NewWritableFile {σ : Type} (fname : String)
    (result : Option (TracingWritableFile σ)) (o : StackOracle) (w : World σ) :
    Completion ((Status × Option (TracingWritableFile σ)) × World σ)
      (Option (TracingWritableFile σ) × World σ) :=
  match w.env.target.NewWritableFile fname w.fs with
  | (s, base, fs) =>
    if !s.ok then Completion.returned ((s, result), { w with fs := fs })
    else if w.env.cfg_.trace_open then
      match w.env.Trace w.cerr o "open_w" fname 0 s 2 with
      | Completion.undefined => Completion.undefined
      | Completion.threw (env, cerr) =>
        Completion.threw (result, { env := env, cerr := cerr, fs := fs })
      | Completion.returned (env, cerr) =>
        Completion.returned
          ((s, some ⟨fname, base, w.env.this_⟩), { env := env, cerr := cerr, fs := fs })
    else Completion.returned ((s, some ⟨fname, base, w.env.this_⟩), { w with fs := fs })

/-- The method `TracingEnv::NewAppendableFile(fname, result)`. -/
def TracingEnv.NewAppendableFile {σ : Type} (fname : String)
    (result : Option (TracingWritableFile σ)) (o : StackOracle) (w : World σ) :
    Completion ((Status × Option (TracingWritableFile σ)) × World σ)
      (Option (TracingWritableFile σ) × World σ) :=
  match w.env.target.NewAppendableFile fname w.fs with
  | (s, base, fs) =>
    if !s.ok then Completion.returned ((s, result), { w with fs := fs })
    else if w.env.cfg_.trace_open then
      match w.env.Trace w.cerr o "open_a" fname 0 s 2 with
      | Completion.undefined => Completion.undefined
      | Completion.threw (env, cerr) =>
        Completion.threw (result, { env := env, cerr := cerr, fs := fs })
      | Completion.returned (env, cerr) =>
        Completion.returned
          ((s, some ⟨fname, base, w.env.this_⟩), { env := env, cerr := cerr, fs := fs })
    else Completion.returned ((s, some ⟨fname, base, w.env.this_⟩), { w with fs := fs })

/-! ## Decorated file handles: the seven operations

A null `target_` or a dangling `env_` makes the call undefined.  When the trace
throws, the delegate has already been called: the state left behind holds the
delegate's state and, for a read, the buffers the delegate has written. -/

/-- The method `TracingSequentialFile::Read(n, result, scratch)`. -/
def TracingSequentialFile.Read {σ : Type} (f : TracingSequentialFile σ) (n : Nat)
    (result : Slice) (scratch : List Nat) (o : StackOracle) (w : World σ) :
    Completion ((Status × Slice × List Nat) × World σ) ((Slice × List Nat) × World σ) :=
  match f.target_ with
  | none => Completion.undefined
  | some target =>
    match target.Read n result scratch w.fs with
    | (s, result, scratch, fs) =>
      match w.deref f.env_ with
      | none => Completion.undefined
      | some env =>
        if env.cfg_.trace_reads then
          match env.Trace w.cerr o "seq_read" f.filename_ n s 3 with
          | Completion.undefined => Completion.undefined
          | Completion.threw (env, cerr) =>
            Completion.threw ((result, scratch), { env := env, cerr := cerr, fs := fs })
          | Completion.returned (env, cerr) =>
            Completion.returned ((s, result, scratch), { env := env, cerr := cerr, fs := fs })
        else Completion.returned ((s, result, scratch), { w with fs := fs })

/-- The method `TracingSequentialFile::Skip(n)`. -/
def TracingSequentialFile.Skip {σ : Type} (f : TracingSequentialFile σ) (n : Nat)
    (o : StackOracle) (w : World σ) : Completion (Status × World σ) (World σ) :=
  match f.target_ with
  | none => Completion.undefined
  | some target =>
    match target.Skip n w.fs with
    | (s, fs) =>
      match w.deref f.env_ with
      | none => Completion.undefined
      | some env =>
        if env.cfg_.trace_reads then
          match env.Trace w.cerr o "seq_skip" f.filename_ n s 3 with
          | Completion.undefined => Completion.undefined
          | Completion.threw (env, cerr) =>
            Completion.threw { env := env, cerr := cerr, fs := fs }
          | Completion.returned (env, cerr) =>
            Completion.returned (s, { env := env, cerr := cerr, fs := fs })
        else Completion.returned (s, { w with fs := fs })

/-- The method `TracingRandomAccessFile::Read(offset, n, result, scratch)`. -/
def TracingRandomAccessFile.Read {σ : Type} (f : TracingRandomAccessFile σ) (offset n : Nat)
    (result : Slice) (scratch : List Nat) (o : StackOracle) (w : World σ) :
    Completion ((Status × Slice × List Nat) × World σ) ((Slice × List Nat) × World σ) :=
  match f.target_ with
  | none => Completion.undefined
  | some target =>
    match target.Read offset n result scratch w.fs with
    | (s, result, scratch, fs) =>
      match w.deref f.env_ with
      | none => Completion.undefined
      | some env =>
        if env.cfg_.trace_reads then
          match env.Trace w.cerr o ("rand_read(offset=" ++ toString offset ++ ")")
              f.filename_ n s 3 with
          | Completion.undefined => Completion.undefined
          | Completion.threw (env, cerr) =>
            Completion.threw ((result, scratch), { env := env, cerr := cerr, fs := fs })
          | Completion.returned (env, cerr) =>
            Completion.returned ((s, result, scratch), { env := env, cerr := cerr, fs := fs })
        else Completion.returned ((s, result, scratch), { w with fs := fs })

/-- The method `TracingWritableFile::Append(data)`. -/
def TracingWritableFile.Append {σ : Type} (f : TracingWritableFile σ) (data : Slice)
    (o : StackOracle) (w : World σ) : Completion (Status × World σ) (World σ) :=
  match f.target_ with
  | none => Completion.undefined
  | some target =>
    match target.Append data w.fs with
    | (s, fs) =>
      match w.deref f.env_ with
      | none => Completion.undefined
      | some env =>
        if env.cfg_.trace_writes then
          match env.Trace w.cerr o "append" f.filename_ data.size s 3 with
          | Completion.undefined => Completion.undefined
          | Completion.threw (env, cerr) =>
            Completion.threw { env := env, cerr := cerr, fs := fs }
          | Completion.returned (env, cerr) =>
            Completion.returned (s, { env := env, cerr := cerr, fs := fs })
        else Completion.returned (s, { w with fs := fs })

/-- The method `TracingWritableFile::Close()`. -/
def TracingWritableFile.Close {σ : Type} (f : TracingWritableFile σ)
    (o : StackOracle) (w : World σ) : Completion (Status × World σ) (World σ) :=
  match f.target_ with
  | none => Completion.undefined
  | some target =>
    match target.Close w.fs with
    | (s, fs) =>
      match w.deref f.env_ with
      | none => Completion.undefined
      | some env =>
        if env.cfg_.trace_open then
          match env.Trace w.cerr o "close" f.filename_ 0 s 3 with
          | Completion.undefined => Completion.undefined
          | Completion.threw (env, cerr) =>
            Completion.threw { env := env, cerr := cerr, fs := fs }
          | Completion.returned (env, cerr) =>
            Completion.returned (s, { env := env, cerr := cerr, fs := fs })
        else Completion.returned (s, { w with fs := fs })

/-- The method `TracingWritableFile::Flush()`. -/
def TracingWritableFile.Flush {σ : Type} (f : TracingWritableFile σ)
    (o : StackOracle) (w : World σ) : Completion (Status × World σ) (World σ) :=
  match f.target_ with
  | none => Completion.undefined
  | some target =>
    match target.Flush w.fs with
    | (s, fs) =>
      match w.deref f.env_ with
      | none => Completion.undefined
      | some env =>
        if env.cfg_.trace_sync then
          match env.Trace w.cerr o "flush" f.filename_ 0 s 3 with
          | Completion.undefined => Completion.undefined
          | Completion.threw (env, cerr) =>
            Completion.threw { env := env, cerr := cerr, fs := fs }
          | Completion.returned (env, cerr) =>
            Completion.returned (s, { env := env, cerr := cerr, fs := fs })
        else Completion.returned (s, { w with fs := fs })

/-- The method `TracingWritableFile::Sync()`. -/
def TracingWritableFile.Sync {σ : Type} (f : TracingWritableFile σ)
    (o : StackOracle) (w : World σ) : Completion (Status × World σ) (World σ) :=
  match f.target_ with
  | none => Completion.undefined
  | some target =>
    match target.Sync w.fs with
    | (s, fs) =>
      match w.deref f.env_ with
      | none => Completion.undefined
      | some env =>
        if env.cfg_.trace_sync then
          match env.Trace w.cerr o "sync" f.filename_ 0 s 3 with
          | Completion.undefined => Completion.undefined
          | Completion.threw (env, cerr) =>
            Completion.threw { env := env, cerr := cerr, fs := fs }
          | Completion.returned (env, cerr) =>
            Completion.returned (s, { env := env, cerr := cerr, fs := fs })
        else Completion.returned (s, { w with fs := fs })

/-! ## Sequences of operations

A client of the layer (the storage engine) performs a sequence of opens and of
operations on the handles the opens returned.  A handle is named by its
position in the list of handles of its kind opened so far. -/

/-- One request of the client. -/
inductive Op where
  | NewSequentialFile (fname : String)
  | NewRandomAccessFile (fname : String)
  | NewWritableFile (fname : String)
  | NewAppendableFile (fname : String)
  | SeqRead (h n : Nat) (result : Slice) (scratch : List Nat)
  | SeqSkip (h n : Nat)
  | RandRead (h offset n : Nat) (result : Slice) (scratch : List Nat)
  | Append (h : Nat) (data : Slice)
  | Close (h : Nat)
  | Flush (h : Nat)
  | Sync (h : Nat)
  deriving DecidableEq, Repr

/-- What the client sees of one request: the status and, for a read, the
contents of `*result` and of `scratch` afterwards. -/
structure Outcome where
  status : Status
  bytes : Option (Slice × List Nat)
  deriving DecidableEq, Repr

/-- A client of the decorated environment: the world and the handles it holds. -/
structure Session (σ : Type) where
  world : World σ
  seqs : List (TracingSequentialFile σ)
  rands : List (TracingRandomAccessFile σ)
  writables : List (TracingWritableFile σ)

/-- One request against the decorated environment and its handles.  An open
passes a null `*result` and keeps the handle stored there; a request on a
handle that was never opened is undefined.  When the operation throws, the
client is left with the handles it had. -/
def Session.step {σ : Type} (S : Session σ) (op : Op) (o : StackOracle) :
    Completion (Outcome × Session σ) (Session σ) :=
  match op with
  | Op.NewSequentialFile fname =>
    match TracingEnv.NewSequentialFile fname none o S.world with
    | Completion.undefined => Completion.undefined
    | Completion.threw (_, w) => Completion.threw { S with world := w }
    | Completion.returned ((s, r), w) =>
      Completion.returned
        (⟨s, none⟩, { S with world := w, seqs := S.seqs ++ r.toList })
  | Op.NewRandomAccessFile fname =>
    match TracingEnv.NewRandomAccessFile fname none o S.world with
    | Completion.undefined => Completion.undefined
    | Completion.threw (_, w) => Completion.threw { S with world := w }
    | Completion.returned ((s, r), w) =>
      Completion.returned
        (⟨s, none⟩, { S with world := w, rands := S.rands ++ r.toList })
  | Op.NewWritableFile fname =>
    match TracingEnv.NewWritableFile fname none o S.world with
    | Completion.undefined => Completion.undefined
    | Completion.threw (_, w) => Completion.threw { S with world := w }
    | Completion.returned ((s, r), w) =>
      Completion.returned
        (⟨s, none⟩, { S with world := w, writables := S.writables ++ r.toList })
  | Op.NewAppendableFile fname =>
    match TracingEnv.NewAppendableFile fname none o S.world with
    | Completion.undefined => Completion.undefined
    | Completion.threw (_, w) => Completion.threw { S with world := w }
    | Completion.returned ((s, r), w) =>
      Completion.returned
        (⟨s, none⟩, { S with world := w, writables := S.writables ++ r.toList })
  | Op.SeqRead h n result scratch =>
    match S.seqs.get? h with
    | none => Completion.undefined
    | some f =>
      match f.Read n result scratch o S.world with
      | Completion.undefined => Completion.undefined
      | Completion.threw (_, w) => Completion.threw { S with world := w }
      | Completion.returned ((s, r, sc), w) =>
        Completion.returned (⟨s, some (r, sc)⟩, { S with world := w })
  | Op.SeqSkip h n =>
    match S.seqs.get? h with
    | none => Completion.undefined
    | some f =>
      match f.Skip n o S.world with
      | Completion.undefined => Completion.undefined
      | Completion.threw w => Completion.threw { S with world := w }
      | Completion.returned (s, w) => Completion.returned (⟨s, none⟩, { S with world := w })
  | Op.RandRead h offset n result scratch =>
    match S.rands.get? h with
    | none => Completion.undefined
    | some f =>
      match f.Read offset n result scratch o S.world with
      | Completion.undefined => Completion.undefined
      | Completion.threw (_, w) => Completion.threw { S with world := w }
      | Completion.returned ((s, r, sc), w) =>
        Completion.returned (⟨s, some (r, sc)⟩, { S with world := w })
  | Op.Append h data =>
    match S.writables.get? h with
    | none => Completion.undefined
    | some f =>
      match f.Append data o S.world with
      | Completion.undefined => Completion.undefined
      | Completion.threw w => Completion.threw { S with world := w }
      | Completion.returned (s, w) => Completion.returned (⟨s, none⟩, { S with world := w })
  | Op.Close h =>
    match S.writables.get? h with
    | none => Completion.undefined
    | some f =>
      match f.Close o S.world with
      | Completion.undefined => Completion.undefined
      | Completion.threw w => Completion.threw { S with world := w }
      | Completion.returned (s, w) => Completion.returned (⟨s, none⟩, { S with world := w })
  | Op.Flush h =>
    match S.writables.get? h with
    | none => Completion.undefined
    | some f =>
      match f.Flush o S.world with
      | Completion.undefined => Completion.undefined
      | Completion.threw w => Completion.threw { S with world := w }
      | Completion.returned (s, w) => Completion.returned (⟨s, none⟩, { S with world := w })
  | Op.Sync h =>
    match S.writables.get? h with
    | none => Completion.undefined
    | some f =>
      match f.Sync o S.world with
      | Completion.undefined => Completion.undefined
      | Completion.threw w => Completion.threw { S with world := w }
      | Completion.returned (s, w) => Completion.returned (⟨s, none⟩, { S with world := w })

/-- A sequence of requests against the decorated environment, each with the
stack the capturer would see at that call.  A request that throws ends the
sequence: the exception propagates through the client, which is left with
the outcomes it had received. -/
def Session.run {σ : Type} : List (Op × StackOracle) → Session σ →
    Completion (List Outcome × Session σ) (List Outcome × Session σ)
  | [], S => Completion.returned ([], S)
  | (op, o) :: rest, S =>
    match S.step op o with
    | Completion.undefined => Completion.undefined
    | Completion.threw S1 => Completion.threw ([], S1)
    | Completion.returned (r, S1) =>
      match Session.run rest S1 with
      | Completion.undefined => Completion.undefined
      | Completion.threw (rs, S2) => Completion.threw (r :: rs, S2)
      | Completion.returned (rs, S2) => Completion.returned (r :: rs, S2)

/-- A client of the undecorated delegate: the delegate environment, the state
behind it and the delegate handles the client holds. -/
structure PlainSession (σ : Type) where
  target : Env σ
  fs : σ
  seqs : List (Option (SequentialFile σ))
  rands : List (Option (RandomAccessFile σ))
  writables : List (Option (WritableFile σ))

/-- One request against the undecorated delegate.  The client keeps the handle
of an open exactly when the open returned OK. -/
def PlainSession.step {σ : Type} (P : PlainSession σ) (op : Op) :
    Option (Outcome × PlainSession σ) :=
  match op with
  | Op.NewSequentialFile fname =>
    match P.target.NewSequentialFile fname P.fs with
    | (s, base, fs) =>
      some (⟨s, none⟩, { P with fs := fs, seqs := if s.ok then P.seqs ++ [base] else P.seqs })
  | Op.NewRandomAccessFile fname =>
    match P.target.NewRandomAccessFile fname P.fs with
    | (s, base, fs) =>
      some (⟨s, none⟩,
        { P with fs := fs, rands := if s.ok then P.rands ++ [base] else P.rands })
  | Op.NewWritableFile fname =>
    match P.target.NewWritableFile fname P.fs with
    | (s, base, fs) =>
      some (⟨s, none⟩,
        { P with fs := fs, writables := if s.ok then P.writables ++ [base] else P.writables })
  | Op.NewAppendableFile fname =>
    match P.target.NewAppendableFile fname P.fs with
    | (s, base, fs) =>
      some (⟨s, none⟩,
        { P with fs := fs, writables := if s.ok then P.writables ++ [base] else P.writables })
  | Op.SeqRead h n result scratch =>
    match P.seqs.get? h with
    | some (some t) =>
      match t.Read n result scratch P.fs with
      | (s, r, sc, fs) => some (⟨s, some (r, sc)⟩, { P with fs := fs })
    | _ => none
  | Op.SeqSkip h n =>
    match P.seqs.get? h with
    | some (some t) =>
      match t.Skip n P.fs with
      | (s, fs) => some (⟨s, none⟩, { P with fs := fs })
    | _ => none
  | Op.RandRead h offset n result scratch =>
    match P.rands.get? h with
    | some (some t) =>
      match t.Read offset n result scratch P.fs with
      | (s, r, sc, fs) => some (⟨s, some (r, sc)⟩, { P with fs := fs })
    | _ => none
  | Op.Append h data =>
    match P.writables.get? h with
    | some (some t) =>
      match t.Append data P.fs with
      | (s, fs) => some (⟨s, none⟩, { P with fs := fs })
    | _ => none
  | Op.Close h =>
    match P.writables.get? h with
    | some (some t) =>
      match t.Close P.fs with
      | (s, fs) => some (⟨s, none⟩, { P with fs := fs })
    | _ => none
  | Op.Flush h =>
    match P.writables.get? h with
    | some (some t) =>
      match t.Flush P.fs with
      | (s, fs) => some (⟨s, none⟩, { P with fs := fs })
    | _ => none
  | Op.Sync h =>
    match P.writables.get? h with
    | some (some t) =>
      match t.Sync P.fs with
      | (s, fs) => some (⟨s, none⟩, { P with fs := fs })
    | _ => none

/-- A sequence of requests against the undecorated delegate. -/
def PlainSession.run {σ : Type} : List Op → PlainSession σ →
    Option (List Outcome × PlainSession σ)
  | [], P => some ([], P)
  | op :: rest, P =>
    match P.step op with
    | none => none
    | some (r, P1) =>
      match PlainSession.run rest P1 with
      | none => none
      | some (rs, P2) => some (r :: rs, P2)

/-- The undecorated client behind a decorated one: the same delegate
environment and state, and the delegate of every handle. -/
def Session.erase {σ : Type} (S : Session σ) : PlainSession σ :=
  { target := S.world.env.target
    fs := S.world.fs
    seqs := S.seqs.map (fun f => f.target_)
    rands := S.rands.map (fun f => f.target_)
    writables := S.writables.map (fun f => f.target_) }

/-- A decorated client of the world `w` holding wrappers (created by the
environment of `w`) around the given filenames and delegate handles. -/
def Session.attach {σ : Type} (w : World σ)
    (seqs : List (String × Option (SequentialFile σ)))
    (rands : List (String × Option (RandomAccessFile σ)))
    (writables : List (String × Option (WritableFile σ))) : Session σ :=
  { world := w
    seqs := seqs.map (fun x => ⟨x.1, x.2, w.env.this_⟩)
    rands := rands.map (fun x => ⟨x.1, x.2, w.env.this_⟩)
    writables := writables.map (fun x => ⟨x.1, x.2, w.env.this_⟩) }

/-- Every handle of the session points back to the session's environment. -/
def Session.Consistent {σ : Type} (S : Session σ) : Prop :=
  (∀ f ∈ S.seqs, f.env_ = S.world.env.this_) ∧
  (∀ f ∈ S.rands, f.env_ = S.world.env.this_) ∧
  (∀ f ∈ S.writables, f.env_ = S.world.env.this_)

/-! ## Concrete delegates used to evaluate the operations

The delegates below keep, as their state, the list of calls they received. -/

/-- A call received by a recording delegate, with its arguments. -/
inductive DelegateCall where
  | NewSequentialFile (fname : String)
  | NewRandomAccessFile (fname : String)
  | NewWritableFile (fname : String)
  | NewAppendableFile (fname : String)
  | SeqRead (n : Nat) (result : Slice) (scratch : List Nat)
  | SeqSkip (n : Nat)
  | RandRead (offset n : Nat) (result : Slice) (scratch : List Nat)
  | Append (data : Slice)
  | Close
  | Flush
  | Sync
  deriving DecidableEq, Repr

/-- A sequential file that records its calls and answers every call with the
status `reply`, a read with the bytes `bytes`. -/
def recordingSequentialFile (reply : Status) (bytes : Slice) :
    SequentialFile (List DelegateCall) :=
  { Read := fun n result scratch log =>
      (reply, bytes, bytes, log ++ [DelegateCall.SeqRead n result scratch])
    Skip := fun n log => (reply, log ++ [DelegateCall.SeqSkip n]) }

/-- A random-access file that records its calls. -/
def recordingRandomAccessFile (reply : Status) (bytes : Slice) :
    RandomAccessFile (List DelegateCall) :=
  { Read := fun offset n result scratch log =>
      (reply, bytes, bytes, log ++ [DelegateCall.RandRead offset n result scratch]) }

/-- A writable file that records its calls. -/
def recordingWritableFile (reply : Status) : WritableFile (List DelegateCall) :=
  { Append := fun data log => (reply, log ++ [DelegateCall.Append data])
    Close := fun log => (reply, log ++ [DelegateCall.Close])
    Flush := fun log => (reply, log ++ [DelegateCall.Flush])
    Sync := fun log => (reply, log ++ [DelegateCall.Sync]) }

/-- The status of a successful call. -/
def okStatus : Status := { ok := true, ToString := "OK" }

/-- The status of a failed call. -/
def ioError : Status := { ok := false, ToString := "IO error: disk" }

/-- A delegate environment that records its calls: opening the file named
`missing` fails and leaves the handle null, any other open succeeds with a
recording handle whose calls answer `reply`. -/
def recordingEnv (missing : String) (reply : Status) : Env (List DelegateCall) :=
  { NewSequentialFile := fun fname log =>
      if fname = missing then (ioError, none, log ++ [DelegateCall.NewSequentialFile fname])
      else (okStatus, some (recordingSequentialFile reply [104, 105]),
            log ++ [DelegateCall.NewSequentialFile fname])
    NewRandomAccessFile := fun fname log =>
      if fname = missing then (ioError, none, log ++ [DelegateCall.NewRandomAccessFile fname])
      else (okStatus, some (recordingRandomAccessFile reply [104, 105]),
            log ++ [DelegateCall.NewRandomAccessFile fname])
    NewWritableFile := fun fname log =>
      if fname = missing then (ioError, none, log ++ [DelegateCall.NewWritableFile fname])
      else (okStatus, some (recordingWritableFile reply),
            log ++ [DelegateCall.NewWritableFile fname])
    NewAppendableFile := fun fname log =>
      if fname = missing then (ioError, none, log ++ [DelegateCall.NewAppendableFile fname])
      else (okStatus, some (recordingWritableFile reply),
            log ++ [DelegateCall.NewAppendableFile fname]) }

/-- A process that has just constructed its `TracingEnv` (at address 1) over
the recording environment, before any output. -/
def startWorld (cfg : TraceConfig) (reply : Status) : World (List DelegateCall) :=
  { env := TracingEnv.new 1 (recordingEnv "missing" reply) cfg, cerr := [], fs := [] }

/-- A client that holds no handle yet. -/
def startSession (cfg : TraceConfig) (reply : Status) : Session (List DelegateCall) :=
  { world := startWorld cfg reply, seqs := [], rands := [], writables := [] }

/-- A stack of four frames as the non-Windows library reports it, with the
symbol array present, on a machine whose allocator provides a frame buffer of
up to 10^9 entries (8 GB) and refuses a larger one. -/
def sampleWalk : ExecinfoWalk :=
  { allocates := fun n => decide (n ≤ 1000000000)
    captured := 4
    frames := [4198400, 4198656, 4202496, 4210688]
    symbols := some ["Capture", "Trace", "Append", "DBImpl::Write"]
    ptrText := hexAddress
    captured_le := by decide
    symbols_len := by intro syms h; cases h; decide }

/-- The same stack when `backtrace_symbols` returns a null pointer. -/
def unresolvedWalk : ExecinfoWalk :=
  { allocates := fun n => decide (n ≤ 1000000000)
    captured := 4
    frames := [4198400, 4198656, 4202496, 4210688]
    symbols := none
    ptrText := hexAddress
    captured_le := by decide
    symbols_len := by intro syms h; cases h }

/-- The same stack as the Windows library reports it when no symbol and no
line information can be found. -/
def unresolvedWalkWin32 : DbgHelpWalk :=
  { allocates := fun n => decide (n ≤ 1000000000)
    captured := 4
    frames := [4198400, 4198656, 4202496, 4210688]
    SymFromAddr := fun _ => none
    SymGetLineFromAddr64 := fun _ => none
    captured_le := by decide
    captured_lt := by decide }

/-! ## Quantities the properties are stated with -/

/-- A decimal index "zero-padded to at least two digits". -/
def paddedIndex (k : Nat) : String :=
  if k < 10 then "0" ++ toString k else toString k

/-- The line the properties expect for the frame numbered `k` with text
`cell`: two spaces, `#`, the padded index, a space, the text and a newline. -/
def StackTrace.frameLine (k : Nat) (cell : String) : String :=
  "  #" ++ paddedIndex k ++ " " ++ cell ++ "\n"

/-- The stack listing the properties expect for the texts `cells` of the
frames: one line per frame, in order, numbered consecutively from `k`. -/
def StackTrace.listing (k : Nat) (cells : List String) : String :=
  String.join ((cells.enumFrom k).map (fun x => StackTrace.frameLine x.1 x.2))

/-- The text `StackTrace::Capture` returns, the empty string when the capture
does not return. -/
def StackTrace.text (cfg : TraceConfig) (skip_frames : Int) (o : StackOracle) : String :=
  match StackTrace.Capture cfg skip_frames o with
  | Completion.returned c => c.text
  | _ => ""

/-- Whether the allocator of the call site provides a frame buffer of `n` entries. -/
def StackOracle.allocates (o : StackOracle) (n : Int) : Bool :=
  match o with
  | StackOracle.posix p => p.allocates n
  | StackOracle.win32 w => w.allocates n

/-- The record the properties expect from `Trace`: the tag line, followed by
the captured stack text when `stack_depth > 0`. -/
def TracingEnv.record (cfg : TraceConfig) (o : StackOracle) (op filename : String) (n : Nat)
    (status : Status) (skip_frames : Int) : String :=
  if cfg.stack_depth > 0 then
    TracingEnv.tagLine op filename n status ++ StackTrace.text cfg skip_frames o
  else TracingEnv.tagLine op filename n status

/-- The world the properties expect after a decorated operation whose policy
flag is `flag`: the delegate state is `fs`; with the flag set the counter is
decremented, and a record is appended when the counter was positive. -/
def World.traced {σ : Type} (w : World σ) (flag : Bool) (o : StackOracle)
    (op filename : String) (n : Nat) (status : Status) (skip_frames : Int) (fs : σ) :
    World σ :=
  { env := if flag then
      { w.env with remaining_traces_ := wrapInt32 (w.env.remaining_traces_ - 1) }
      else w.env
    cerr := if flag = true ∧ w.env.remaining_traces_ > 0 then
      w.cerr ++ [TracingEnv.record w.env.cfg_ o op filename n status skip_frames]
      else w.cerr
    fs := fs }

/-- Whether a decorated operation whose policy flag is `flag` is left by
`std::bad_alloc`: it traces (flag set, counter positive), captures
(`stack_depth > 0`) and the allocator refuses the frame buffer. -/
def World.throws {σ : Type} (w : World σ) (flag : Bool) (o : StackOracle) : Bool :=
  flag && decide (0 < w.env.remaining_traces_) && decide (0 < w.env.cfg_.stack_depth) &&
    !o.allocates w.env.cfg_.stack_depth

/-- The world a throwing operation leaves behind: the delegate state is `fs`,
the counter is decremented and nothing has been written. -/
def World.thrown {σ : Type} (w : World σ) (fs : σ) : World σ :=
  { env := { w.env with remaining_traces_ := wrapInt32 (w.env.remaining_traces_ - 1) }
    cerr := w.cerr
    fs := fs }

/-- The flags returned by `n` successive calls of `ShouldTrace`, and the
environment after them. -/
def TracingEnv.shouldTraceCalls {σ : Type} : Nat → TracingEnv σ → List Bool × TracingEnv σ
  | 0, e => ([], e)
  | n + 1, e =>
    let r := TracingEnv.shouldTraceCalls n e.ShouldTrace.2
    (e.ShouldTrace.1 :: r.1, r.2)

/-- Whether a request is "trace-eligible" under a policy, given the status
it returned: a successful open or a close with `trace_open`, a sequential
read/skip or a random read with `trace_reads`, an append with `trace_writes`, a
flush or sync with `trace_sync`. -/
def Op.eligible (cfg : TraceConfig) (op : Op) (status : Status) : Bool :=
  match op with
  | Op.NewSequentialFile _ => cfg.trace_open && status.ok
  | Op.NewRandomAccessFile _ => cfg.trace_open && status.ok
  | Op.NewWritableFile _ => cfg.trace_open && status.ok
  | Op.NewAppendableFile _ => cfg.trace_open && status.ok
  | Op.SeqRead _ _ _ _ => cfg.trace_reads
  | Op.SeqSkip _ _ => cfg.trace_reads
  | Op.RandRead _ _ _ _ _ => cfg.trace_reads
  | Op.Append _ _ => cfg.trace_writes
  | Op.Close _ => cfg.trace_open
  | Op.Flush _ => cfg.trace_sync
  | Op.Sync _ => cfg.trace_sync

/-- The policy flag that gates the trace of a request. -/
def Op.flag (cfg : TraceConfig) (op : Op) : Bool :=
  match op with
  | Op.NewSequentialFile _ => cfg.trace_open
  | Op.NewRandomAccessFile _ => cfg.trace_open
  | Op.NewWritableFile _ => cfg.trace_open
  | Op.NewAppendableFile _ => cfg.trace_open
  | Op.SeqRead _ _ _ _ => cfg.trace_reads
  | Op.SeqSkip _ _ => cfg.trace_reads
  | Op.RandRead _ _ _ _ _ => cfg.trace_reads
  | Op.Append _ _ => cfg.trace_writes
  | Op.Close _ => cfg.trace_open
  | Op.Flush _ => cfg.trace_sync
  | Op.Sync _ => cfg.trace_sync

/-- A request that cannot be left by `std::bad_alloc` under a policy, whatever
the counter: its category is not traced, or no stack is captured
(`stack_depth <= 0`), or the allocator provides the frame buffer. -/
def Op.safe (cfg : TraceConfig) (op : Op) (o : StackOracle) : Bool :=
  !Op.flag cfg op || decide (cfg.stack_depth ≤ 0) || o.allocates cfg.stack_depth

/-- The number of trace-eligible requests of a sequence with its statuses. -/
def eligibleCount (cfg : TraceConfig) : List Op → List Outcome → Nat
  | op :: ops, r :: rs =>
    (if Op.eligible cfg op r.status then 1 else 0) + eligibleCount cfg ops rs
  | _, _ => 0

/-- The first line of a text: its characters before the first newline. -/
def firstLine (s : String) : String :=
  String.mk (s.data.takeWhile (fun c => c != '\n'))

/-- The number of positions of `text` at which `pat` occurs. -/
def occurrences (pat : List Char) : List Char → Nat
  | [] => 0
  | c :: cs => (if pat.isPrefixOf (c :: cs) then 1 else 0) + occurrences pat cs

/-- The number of `key` fields of a line: the occurrences of `key` in it. -/
def fieldCount (key : String) (line : String) : Nat :=
  occurrences key.data line.data

/-- The number of records that `k` successive trace-eligible requests write
when the counter holds `c` before the first of them. -/
def emittedCount : Nat → Int → Nat
  | 0, _ => 0
  | k + 1, c => (if 0 < c then 1 else 0) + emittedCount k (wrapInt32 (c - 1))

/-- The value of the counter after `k` trace-eligible requests. -/
def counterAfter : Nat → Int → Int
  | 0, c => c
  | k + 1, c => counterAfter k (wrapInt32 (c - 1))

/-- The number of records the budget cap allows for `k` eligible requests:
`min(k, max(max_traces, 0))`. -/
def budgetCap (cfg : TraceConfig) (k : Nat) : Int :=
  min (k : Int) (max cfg.max_traces 0)

/-! # Properties -/

/-! ## The capture loop and the capturer -/

/-- With fuel left, the digit loop of `Nat.repr` produces at least one character. -/
theorem toDigitsCore_length_pos (b fuel n : Nat) (ds : List Char) :
    0 < (Nat.toDigitsCore b (fuel + 1) n ds).length := by
  unfold Nat.toDigitsCore
  simp only
  split
  · simp
  · cases ds with
    | nil => rw [Nat.toDigitsCore_lens_eq]; omega
    | cons c cs => rw [Nat.toDigitsCore_lens_eq]; omega

/-- A number of at least ten prints with at least two digits. -/
theorem repr_length_ge_two (k : Nat) (h : 10 ≤ k) : 2 ≤ (toString k).length := by
  show 2 ≤ (Nat.repr k).length
  unfold Nat.repr Nat.toDigits
  simp only [String.length, List.asString]
  unfold Nat.toDigitsCore
  have h1 : k / 10 ≠ 0 := by omega
  simp only [h1, if_false]
  rw [Nat.toDigitsCore_lens_eq]
  obtain ⟨j, rfl⟩ : ∃ j, k = j + 1 := ⟨k - 1, by omega⟩
  have := toDigitsCore_length_pos 10 j ((j + 1) / 10) []
  omega

/-- On a non-negative index, `setw(2)` with fill `'0'` pads to at least two digits. -/
theorem setw2fill0_natCast (k : Nat) : setw2fill0 (k : Int) = paddedIndex k := by
  unfold setw2fill0 paddedIndex
  have hs : toString ((k : Nat) : Int) = toString k := rfl
  rw [hs]
  by_cases h : k < 10
  · rw [if_pos h]
    interval_cases k <;> rfl
  · rw [if_neg h]
    have := repr_length_ge_two k (by omega)
    have h0 : 2 - (toString k).length = 0 := by omega
    rw [h0]
    apply String.ext
    simp

/-- The listing of no frame is empty. -/
theorem StackTrace.listing_nil (k : Nat) : StackTrace.listing k [] = "" := rfl

/-- The listing of a non-empty list of frames starts with the line the loop prints. -/
theorem StackTrace.listing_cons (k : Nat) (c : String) (cs : List String) :
    StackTrace.listing k (c :: cs) =
      ("  #" ++ setw2fill0 (k : Int) ++ " " ++ c ++ "\n") ++ StackTrace.listing (k + 1) cs := by
  unfold StackTrace.listing
  rw [setw2fill0_natCast]
  apply String.ext
  simp [String.data_join, StackTrace.frameLine, List.enumFrom_cons]

/-- Reading a mapped array is mapping the read. -/
theorem arrayAt_map {α β : Type} (f : α → β) (xs : List α) (i : Int) :
    (arrayAt xs i).map f = arrayAt (xs.map f) i := by
  unfold arrayAt
  split <;> simp [List.get?_eq_getElem?]

/-- A read inside the array returns its element. -/
theorem arrayAt_of_lt {α : Type} (xs : List α) (i : Int) (h0 : 0 ≤ i)
    (h : i.toNat < xs.length) :
    arrayAt xs i = some (xs[i.toNat]) := by
  unfold arrayAt
  simp [h0, List.get?_eq_getElem?, List.getElem?_eq_getElem h]

/-- The frame loop, started at an index `i >= max(0, skip_frames)` over an array that holds
the `captured` entries and with enough fuel, terminates and appends the listing of the
entries `i .. captured - 1`, numbered from `i - skip_frames`. -/
theorem StackTrace.listFrames_eq (skip_frames captured : Int) (xs : List String)
    (hlen : captured ≤ xs.length) :
    ∀ (fuel : Nat) (i : Int) (out : String), 0 ≤ i → skip_frames ≤ i →
      (captured - i).toNat < fuel →
      StackTrace.listFrames skip_frames captured (arrayAt xs) fuel i out =
        some (out ++ StackTrace.listing (i - skip_frames).toNat
          ((xs.take captured.toNat).drop i.toNat)) := by
  intro fuel
  induction fuel with
  | zero => intro i out _ _ h; omega
  | succ fuel ih =>
    intro i out h0 hs hf
    unfold StackTrace.listFrames
    by_cases hi : i < captured
    · have hlt : i.toNat < xs.length := by omega
      have hlt2 : i.toNat < (xs.take captured.toNat).length := by
        rw [List.length_take]; omega
      rw [if_pos hi, arrayAt_of_lt xs i h0 hlt]
      simp only
      rw [ih (i + 1) _ (by omega) (by omega) (by omega)]
      rw [List.drop_eq_getElem_cons hlt2]
      have e1 : (i + 1 - skip_frames).toNat = (i - skip_frames).toNat + 1 := by omega
      have e2 : (i + 1).toNat = i.toNat + 1 := by omega
      have e3 : (((i - skip_frames).toNat : Nat) : Int) = i - skip_frames := by omega
      rw [e1, e2]
      simp only [StackTrace.listing_cons, e3, List.getElem_take, String.append_assoc]
    · rw [if_neg hi]
      have : (xs.take captured.toNat).drop i.toNat = [] := by
        apply List.drop_eq_nil_of_le
        rw [List.length_take]; omega
      rw [this, StackTrace.listing_nil, String.append_empty]

/-- The text returned by the non-Windows branch for `skip_frames >= 0` once the frame buffer
is allocated, branch by branch. -/
theorem StackTrace.CapturePosix_text (cfg : TraceConfig) (skip_frames : Int) (p : ExecinfoWalk)
    (halloc : p.allocates cfg.stack_depth = true) (h0 : 0 ≤ skip_frames) :
    (StackTrace.CapturePosix cfg skip_frames p).result.map (fun c => c.text) =
      some (if p.captured ≤ 0 then ""
        else if cfg.symbolize then
          match p.symbols with
          | none => ""
          | some syms =>
            StackTrace.listing 0 ((syms.take p.captured.toNat).drop skip_frames.toNat)
        else StackTrace.listing 0
          (((p.frames.map p.ptrText).take p.captured.toNat).drop skip_frames.toNat)) := by
  unfold StackTrace.CapturePosix
  simp only [halloc, Bool.not_true, Bool.false_eq_true, if_false]
  by_cases hc : p.captured ≤ 0
  · simp [hc, Completion.result]
  · rw [if_neg hc, if_neg hc]
    cases hsym : cfg.symbolize
    · have hlen : p.captured ≤ ((p.frames.map p.ptrText).length : Int) := by
        rw [List.length_map]; exact p.captured_le
      have hfun : (fun i => (arrayAt p.frames i).map p.ptrText) =
          arrayAt (p.frames.map p.ptrText) := by
        funext i; exact arrayAt_map _ _ _
      simp only [Bool.not_false, if_true, hfun]
      rw [StackTrace.listFrames_eq skip_frames p.captured _ hlen _ skip_frames ""
        h0 (le_refl _) (by omega)]
      simp [Completion.result]
    · simp only [Bool.not_true, Bool.false_eq_true, if_false, if_true]
      cases hs : p.symbols with
      | none => simp [Completion.result]
      | some syms =>
        have hlen : p.captured ≤ (syms.length : Int) := p.symbols_len syms hs
        simp only
        rw [StackTrace.listFrames_eq skip_frames p.captured _ hlen _ skip_frames ""
          h0 (le_refl _) (by omega)]
        simp [Completion.result]

/-- The Windows loop terminates with a result for every `skip_frames` in `0 .. INT_MAX`. -/
theorem StackTrace.listFramesWin32_isSome (cfg : TraceConfig) (skip_frames : Int)
    (w : DbgHelpWalk) (h0 : 0 ≤ skip_frames) (h1 : skip_frames ≤ 2147483647) :
    ∀ (fuel i : Nat) (out : Captured), w.captured - i < fuel →
      ∃ c, StackTrace.listFramesWin32 cfg skip_frames w fuel i out = some c := by
  intro fuel
  induction fuel with
  | zero => intro i out h; omega
  | succ fuel ih =>
    intro i out hf
    unfold StackTrace.listFramesWin32
    by_cases hi : i < w.captured
    · have hlt : i < w.frames.length := lt_of_lt_of_le hi w.captured_le
      have hcap := w.captured_lt
      have hr : isInt32 ((i : Int) - skip_frames) := by
        unfold isInt32; omega
      rw [if_pos hi, List.get?_eq_getElem?, List.getElem?_eq_getElem hlt]
      simp only [if_pos hr]
      split
      · exact ih _ _ (by omega)
      · exact ih _ _ (by omega)
    · rw [if_neg hi]; exact ⟨out, rfl⟩

/-- A completion with a result is a return. -/
theorem Completion.returned_of_result {α ω : Type} (c : Completion α ω) (a : α)
    (h : c.result = some a) : c = Completion.returned a := by
  cases c with
  | returned b => simp only [Completion.result, Option.some.injEq] at h; rw [h]
  | threw w => simp [Completion.result] at h
  | undefined => simp [Completion.result] at h

/-- With `stack_depth > 0` and an allocator that refuses the frame buffer, the capture throws,
on both platforms and for every `skip_frames`. -/
theorem StackTrace.Capture_throws (cfg : TraceConfig) (skip_frames : Int) (o : StackOracle)
    (hd : 0 < cfg.stack_depth) (halloc : o.allocates cfg.stack_depth = false) :
    StackTrace.Capture cfg skip_frames o = Completion.threw () := by
  unfold StackTrace.Capture
  rw [if_neg (by omega)]
  cases o with
  | posix p =>
    simp only [StackOracle.allocates] at halloc
    simp [StackTrace.CapturePosix, halloc]
  | win32 w =>
    simp only [StackOracle.allocates] at halloc
    simp [StackTrace.CaptureWin32, halloc]

/-- The capture returns for every `skip_frames` in `0 .. INT_MAX`, on both platforms, when it
needs no frame buffer or the allocator provides it. -/
theorem StackTrace.Capture_returns (cfg : TraceConfig) (skip_frames : Int) (o : StackOracle)
    (h0 : 0 ≤ skip_frames) (h1 : skip_frames ≤ 2147483647)
    (halloc : cfg.stack_depth ≤ 0 ∨ o.allocates cfg.stack_depth = true) :
    ∃ c, StackTrace.Capture cfg skip_frames o = Completion.returned c := by
  unfold StackTrace.Capture
  by_cases hd : cfg.stack_depth ≤ 0
  · rw [if_pos hd]; exact ⟨_, rfl⟩
  · rw [if_neg hd]
    have ha : o.allocates cfg.stack_depth = true := by
      rcases halloc with h | h
      · exact absurd h hd
      · exact h
    cases o with
    | posix p =>
      simp only [StackOracle.allocates] at ha
      have h := StackTrace.CapturePosix_text cfg skip_frames p ha h0
      cases hc : StackTrace.CapturePosix cfg skip_frames p with
      | returned c => exact ⟨c, hc⟩
      | threw u => rw [hc] at h; simp [Completion.result] at h
      | undefined => rw [hc] at h; simp [Completion.result] at h
    | win32 w =>
      simp only [StackOracle.allocates] at ha
      obtain ⟨c, hc⟩ := StackTrace.listFramesWin32_isSome cfg skip_frames w h0 h1
        (w.captured + 1) (toUSHORT skip_frames)
        ⟨"", [LibCall.CaptureStackBackTrace cfg.stack_depth]⟩ (by omega)
      refine ⟨c, ?_⟩
      simp only [StackTrace.CaptureWin32, ha, Bool.not_true, Bool.false_eq_true, if_false, hc]

/-- The effect of `Trace` for `skip_frames` in `0 .. INT_MAX`: the counter is decremented; when
the counter was positive the record is appended, unless the capture is needed and the
allocator refuses the frame buffer, in which case the call throws before writing. -/
theorem TracingEnv.Trace_eq {σ : Type} (e : TracingEnv σ) (cerr : List String)
    (o : StackOracle) (op filename : String) (n : Nat) (status : Status) (skip_frames : Int)
    (h0 : 0 ≤ skip_frames) (h1 : skip_frames ≤ 2147483647) :
    e.Trace cerr o op filename n status skip_frames =
      if 0 < e.remaining_traces_ ∧ 0 < e.cfg_.stack_depth ∧
          o.allocates e.cfg_.stack_depth = false then
        Completion.threw
          ({ e with remaining_traces_ := wrapInt32 (e.remaining_traces_ - 1) }, cerr)
      else
        Completion.returned
          ({ e with remaining_traces_ := wrapInt32 (e.remaining_traces_ - 1) },
            if e.remaining_traces_ > 0 then
              cerr ++ [TracingEnv.record e.cfg_ o op filename n status skip_frames]
            else cerr) := by
  unfold TracingEnv.Trace TracingEnv.ShouldTrace TracingEnv.record StackTrace.text
  by_cases hr : e.remaining_traces_ > 0
  · by_cases hd : e.cfg_.stack_depth > 0
    · cases ha : o.allocates e.cfg_.stack_depth
      · have hc := StackTrace.Capture_throws e.cfg_ skip_frames o hd ha
        simp [hr, hd, hc]
      · obtain ⟨c, hc⟩ := StackTrace.Capture_returns e.cfg_ skip_frames o h0 h1 (Or.inr ha)
        simp [hr, hd, hc]
    · simp [hr, hd]
  · simp [hr]

/-! ## Closed forms of the eleven operations -/

/-- With the flag clear only the delegate state changes. -/
theorem World.traced_false {σ : Type} (w : World σ) (o : StackOracle) (op filename : String)
    (n : Nat) (status : Status) (skip_frames : Int) (fs : σ) :
    w.traced false o op filename n status skip_frames fs = { w with fs := fs } := by
  simp [World.traced]

/-- An operation whose flag is clear does not throw. -/
theorem World.throws_false {σ : Type} (w : World σ) (o : StackOracle) :
    w.throws false o = false := by
  simp [World.throws]

/-- An operation whose flag is set throws exactly when it traces, captures and the allocator
refuses the frame buffer. -/
theorem World.throws_true {σ : Type} (w : World σ) (o : StackOracle) :
    w.throws true o = true ↔
      (0 < w.env.remaining_traces_ ∧ 0 < w.env.cfg_.stack_depth ∧
        o.allocates w.env.cfg_.stack_depth = false) := by
  simp [World.throws, and_assoc]

/-- No operation throws when the allocator provides the frame buffer. -/
theorem World.throws_of_allocates {σ : Type} (w : World σ) (flag : Bool) (o : StackOracle)
    (h : o.allocates w.env.cfg_.stack_depth = true) : w.throws flag o = false := by
  simp [World.throws, h]

/-- A call of `Trace` after the delegate call either throws, leaving the world
`World.thrown` describes, or returns the world `World.traced` describes. -/
theorem World.Trace_traced {σ : Type} (w : World σ) (o : StackOracle) (op filename : String)
    (n : Nat) (status : Status) (skip_frames : Int)
    (h0 : 0 ≤ skip_frames) (h1 : skip_frames ≤ 2147483647) :
    w.env.Trace w.cerr o op filename n status skip_frames =
      if w.throws true o = true then
        Completion.threw ((w.thrown w.fs).env, (w.thrown w.fs).cerr)
      else
        Completion.returned
          ((w.traced true o op filename n status skip_frames w.fs).env,
           (w.traced true o op filename n status skip_frames w.fs).cerr) := by
  rw [TracingEnv.Trace_eq _ _ _ _ _ _ _ _ h0 h1]
  by_cases hc : 0 < w.env.remaining_traces_ ∧ 0 < w.env.cfg_.stack_depth ∧
      o.allocates w.env.cfg_.stack_depth = false
  · rw [if_pos hc, if_pos ((World.throws_true w o).2 hc)]
    rfl
  · rw [if_neg hc, if_neg (fun h => hc ((World.throws_true w o).1 h))]
    simp [World.traced]

/-- Closed form of the operation on a wrapper with a non-null delegate that points to the
environment: it throws after the delegate call, or returns the delegate's results and the
world `World.traced` describes. -/
theorem TracingSequentialFile.Read_eq {σ : Type} (filename : String)
    (target : SequentialFile σ) (n : Nat) (result : Slice) (scratch : List Nat)
    (o : StackOracle) (w : World σ) :
    TracingSequentialFile.Read ⟨filename, some target, w.env.this_⟩ n result scratch o w =
      if w.throws w.env.cfg_.trace_reads o = true then
        Completion.threw (((target.Read n result scratch w.fs).2.1,
              (target.Read n result scratch w.fs).2.2.1),
            w.thrown (target.Read n result scratch w.fs).2.2.2)
      else
        Completion.returned (((target.Read n result scratch w.fs).1, (target.Read n result scratch w.fs).2.1,
                (target.Read n result scratch w.fs).2.2.1),
              w.traced w.env.cfg_.trace_reads o "seq_read" filename n
                (target.Read n result scratch w.fs).1 3
                (target.Read n result scratch w.fs).2.2.2) := by
  unfold TracingSequentialFile.Read
  simp only [World.deref, if_true]
  cases hf : w.env.cfg_.trace_reads
  · simp [World.traced_false, World.throws_false]
  · simp only [if_true]
    rw [World.Trace_traced w o "seq_read" filename n
      (target.Read n result scratch w.fs).1 3 (by decide) (by decide)]
    by_cases ht : w.throws true o = true
    · simp only [ht, if_true]
      rfl
    · simp only [ht, if_false]
      cases hr : decide (0 < w.env.remaining_traces_) <;> simp [World.traced, hr]

/-- Closed form of the operation on a wrapper with a non-null delegate that points to the
environment: it throws after the delegate call, or returns the delegate's results and the
world `World.traced` describes. -/
theorem TracingSequentialFile.Skip_eq {σ : Type} (filename : String)
    (target : SequentialFile σ) (n : Nat)
    (o : StackOracle) (w : World σ) :
    TracingSequentialFile.Skip ⟨filename, some target, w.env.this_⟩ n o w =
      if w.throws w.env.cfg_.trace_reads o = true then
        Completion.threw (w.thrown (target.Skip n w.fs).2)
      else
        Completion.returned ((target.Skip n w.fs).1,
              w.traced w.env.cfg_.trace_reads o "seq_skip" filename n
                (target.Skip n w.fs).1 3
                (target.Skip n w.fs).2) := by
  unfold TracingSequentialFile.Skip
  simp only [World.deref, if_true]
  cases hf : w.env.cfg_.trace_reads
  · simp [World.traced_false, World.throws_false]
  · simp only [if_true]
    rw [World.Trace_traced w o "seq_skip" filename n
      (target.Skip n w.fs).1 3 (by decide) (by decide)]
    by_cases ht : w.throws true o = true
    · simp only [ht, if_true]
      rfl
    · simp only [ht, if_false]
      cases hr : decide (0 < w.env.remaining_traces_) <;> simp [World.traced, hr]

/-- Closed form of the operation on a wrapper with a non-null delegate that points to the
environment: it throws after the delegate call, or returns the delegate's results and the
world `World.traced` describes. -/
theorem TracingRandomAccessFile.ReadAt_eq {σ : Type} (filename : String)
    (target : RandomAccessFile σ) (offset n : Nat) (result : Slice)
    (scratch : List Nat)
    (o : StackOracle) (w : World σ) :
    TracingRandomAccessFile.Read ⟨filename, some target, w.env.this_⟩ offset n result scratch o w =
      if w.throws w.env.cfg_.trace_reads o = true then
        Completion.threw (((target.Read offset n result scratch w.fs).2.1,
              (target.Read offset n result scratch w.fs).2.2.1),
            w.thrown (target.Read offset n result scratch w.fs).2.2.2)
      else
        Completion.returned (((target.Read offset n result scratch w.fs).1, (target.Read offset n result scratch w.fs).2.1,
                (target.Read offset n result scratch w.fs).2.2.1),
              w.traced w.env.cfg_.trace_reads o ("rand_read(offset=" ++ toString offset ++ ")") filename n
                (target.Read offset n result scratch w.fs).1 3
                (target.Read offset n result scratch w.fs).2.2.2) := by
  unfold TracingRandomAccessFile.Read
  simp only [World.deref, if_true]
  cases hf : w.env.cfg_.trace_reads
  · simp [World.traced_false, World.throws_false]
  · simp only [if_true]
    rw [World.Trace_traced w o ("rand_read(offset=" ++ toString offset ++ ")") filename n
      (target.Read offset n result scratch w.fs).1 3 (by decide) (by decide)]
    by_cases ht : w.throws true o = true
    · simp only [ht, if_true]
      rfl
    · simp only [ht, if_false]
      cases hr : decide (0 < w.env.remaining_traces_) <;> simp [World.traced, hr]

/-- Closed form of the operation on a wrapper with a non-null delegate that points to the
environment: it throws after the delegate call, or returns the delegate's results and the
world `World.traced` describes. -/
theorem TracingWritableFile.Append_eq {σ : Type} (filename : String)
    (target : WritableFile σ) (data : Slice)
    (o : StackOracle) (w : World σ) :
    TracingWritableFile.Append ⟨filename, some target, w.env.this_⟩ data o w =
      if w.throws w.env.cfg_.trace_writes o = true then
        Completion.threw (w.thrown (target.Append data w.fs).2)
      else
        Completion.returned ((target.Append data w.fs).1,
              w.traced w.env.cfg_.trace_writes o "append" filename data.size
                (target.Append data w.fs).1 3
                (target.Append data w.fs).2) := by
  unfold TracingWritableFile.Append
  simp only [World.deref, if_true]
  cases hf : w.env.cfg_.trace_writes
  · simp [World.traced_false, World.throws_false]
  · simp only [if_true]
    rw [World.Trace_traced w o "append" filename data.size
      (target.Append data w.fs).1 3 (by decide) (by decide)]
    by_cases ht : w.throws true o = true
    · simp only [ht, if_true]
      rfl
    · simp only [ht, if_false]
      cases hr : decide (0 < w.env.remaining_traces_) <;> simp [World.traced, hr]

/-- Closed form of the operation on a wrapper with a non-null delegate that points to the
environment: it throws after the delegate call, or returns the delegate's results and the
world `World.traced` describes. -/
theorem TracingWritableFile.Close_eq {σ : Type} (filename : String)
    (target : WritableFile σ)
    (o : StackOracle) (w : World σ) :
    TracingWritableFile.Close ⟨filename, some target, w.env.this_⟩ o w =
      if w.throws w.env.cfg_.trace_open o = true then
        Completion.threw (w.thrown (target.Close w.fs).2)
      else
        Completion.returned ((target.Close w.fs).1,
              w.traced w.env.cfg_.trace_open o "close" filename 0
                (target.Close w.fs).1 3
                (target.Close w.fs).2) := by
  unfold TracingWritableFile.Close
  simp only [World.deref, if_true]
  cases hf : w.env.cfg_.trace_open
  · simp [World.traced_false, World.throws_false]
  · simp only [if_true]
    rw [World.Trace_traced w o "close" filename 0
      (target.Close w.fs).1 3 (by decide) (by decide)]
    by_cases ht : w.throws true o = true
    · simp only [ht, if_true]
      rfl
    · simp only [ht, if_false]
      cases hr : decide (0 < w.env.remaining_traces_) <;> simp [World.traced, hr]

/-- Closed form of the operation on a wrapper with a non-null delegate that points to the
environment: it throws after the delegate call, or returns the delegate's results and the
world `World.traced` describes. -/
theorem TracingWritableFile.Flush_eq {σ : Type} (filename : String)
    (target : WritableFile σ)
    (o : StackOracle) (w : World σ) :
    TracingWritableFile.Flush ⟨filename, some target, w.env.this_⟩ o w =
      if w.throws w.env.cfg_.trace_sync o = true then
        Completion.threw (w.thrown (target.Flush w.fs).2)
      else
        Completion.returned ((target.Flush w.fs).1,
              w.traced w.env.cfg_.trace_sync o "flush" filename 0
                (target.Flush w.fs).1 3
                (target.Flush w.fs).2) := by
  unfold TracingWritableFile.Flush
  simp only [World.deref, if_true]
  cases hf : w.env.cfg_.trace_sync
  · simp [World.traced_false, World.throws_false]
  · simp only [if_true]
    rw [World.Trace_traced w o "flush" filename 0
      (target.Flush w.fs).1 3 (by decide) (by decide)]
    by_cases ht : w.throws true o = true
    · simp only [ht, if_true]
      rfl
    · simp only [ht, if_false]
      cases hr : decide (0 < w.env.remaining_traces_) <;> simp [World.traced, hr]

/-- Closed form of the operation on a wrapper with a non-null delegate that points to the
environment: it throws after the delegate call, or returns the delegate's results and the
world `World.traced` describes. -/
theorem TracingWritableFile.Sync_eq {σ : Type} (filename : String)
    (target : WritableFile σ)
    (o : StackOracle) (w : World σ) :
    TracingWritableFile.Sync ⟨filename, some target, w.env.this_⟩ o w =
      if w.throws w.env.cfg_.trace_sync o = true then
        Completion.threw (w.thrown (target.Sync w.fs).2)
      else
        Completion.returned ((target.Sync w.fs).1,
              w.traced w.env.cfg_.trace_sync o "sync" filename 0
                (target.Sync w.fs).1 3
                (target.Sync w.fs).2) := by
  unfold TracingWritableFile.Sync
  simp only [World.deref, if_true]
  cases hf : w.env.cfg_.trace_sync
  · simp [World.traced_false, World.throws_false]
  · simp only [if_true]
    rw [World.Trace_traced w o "sync" filename 0
      (target.Sync w.fs).1 3 (by decide) (by decide)]
    by_cases ht : w.throws true o = true
    · simp only [ht, if_true]
      rfl
    · simp only [ht, if_false]
      cases hr : decide (0 < w.env.remaining_traces_) <;> simp [World.traced, hr]

/-- Closed form of the open operation: the failure branch, the throw before `*result` is
written, and the success branch. -/
theorem TracingEnv.NewSequentialFile_eq {σ : Type} (fname : String)
    (result : Option (TracingSequentialFile σ)) (o : StackOracle) (w : World σ) :
    TracingEnv.NewSequentialFile fname result o w =
      if (w.env.target.NewSequentialFile fname w.fs).1.ok then
        if w.throws w.env.cfg_.trace_open o = true then
          Completion.threw (result, w.thrown (w.env.target.NewSequentialFile fname w.fs).2.2)
        else
          Completion.returned
            (((w.env.target.NewSequentialFile fname w.fs).1,
              some ⟨fname, (w.env.target.NewSequentialFile fname w.fs).2.1, w.env.this_⟩),
             w.traced w.env.cfg_.trace_open o "open_seq" fname 0
               (w.env.target.NewSequentialFile fname w.fs).1 2
               (w.env.target.NewSequentialFile fname w.fs).2.2)
      else
        Completion.returned
          (((w.env.target.NewSequentialFile fname w.fs).1, result),
           { w with fs := (w.env.target.NewSequentialFile fname w.fs).2.2 }) := by
  unfold TracingEnv.NewSequentialFile
  cases hok : (w.env.target.NewSequentialFile fname w.fs).1.ok
  · simp [hok]
  · cases hf : w.env.cfg_.trace_open
    · simp [hok, World.traced_false, World.throws_false]
    · simp only [hok, Bool.not_true, Bool.false_eq_true, if_false, if_true]
      rw [World.Trace_traced w o "open_seq" fname 0
        (w.env.target.NewSequentialFile fname w.fs).1 2 (by decide) (by decide)]
      by_cases ht : w.throws true o = true
      · simp only [ht, if_true]
        rfl
      · simp only [ht, if_false]
        cases hr : decide (0 < w.env.remaining_traces_) <;> simp [World.traced, hr]

/-- Closed form of the open operation: the failure branch, the throw before `*result` is
written, and the success branch. -/
theorem TracingEnv.NewRandomAccessFile_eq {σ : Type} (fname : String)
    (result : Option (TracingRandomAccessFile σ)) (o : StackOracle) (w : World σ) :
    TracingEnv.NewRandomAccessFile fname result o w =
      if (w.env.target.NewRandomAccessFile fname w.fs).1.ok then
        if w.throws w.env.cfg_.trace_open o = true then
          Completion.threw (result, w.thrown (w.env.target.NewRandomAccessFile fname w.fs).2.2)
        else
          Completion.returned
            (((w.env.target.NewRandomAccessFile fname w.fs).1,
              some ⟨fname, (w.env.target.NewRandomAccessFile fname w.fs).2.1, w.env.this_⟩),
             w.traced w.env.cfg_.trace_open o "open_rand" fname 0
               (w.env.target.NewRandomAccessFile fname w.fs).1 2
               (w.env.target.NewRandomAccessFile fname w.fs).2.2)
      else
        Completion.returned
          (((w.env.target.NewRandomAccessFile fname w.fs).1, result),
           { w with fs := (w.env.target.NewRandomAccessFile fname w.fs).2.2 }) := by
  unfold TracingEnv.NewRandomAccessFile
  cases hok : (w.env.target.NewRandomAccessFile fname w.fs).1.ok
  · simp [hok]
  · cases hf : w.env.cfg_.trace_open
    · simp [hok, World.traced_false, World.throws_false]
    · simp only [hok, Bool.not_true, Bool.false_eq_true, if_false, if_true]
      rw [World.Trace_traced w o "open_rand" fname 0
        (w.env.target.NewRandomAccessFile fname w.fs).1 2 (by decide) (by decide)]
      by_cases ht : w.throws true o = true
      · simp only [ht, if_true]
        rfl
      · simp only [ht, if_false]
        cases hr : decide (0 < w.env.remaining_traces_) <;> simp [World.traced, hr]

/-- Closed form of the open operation: the failure branch, the throw before `*result` is
written, and the success branch. -/
theorem TracingEnv.NewWritableFile_eq {σ : Type} (fname : String)
    (result : Option (TracingWritableFile σ)) (o : StackOracle) (w : World σ) :
    TracingEnv.NewWritableFile fname result o w =
      if (w.env.target.NewWritableFile fname w.fs).1.ok then
        if w.throws w.env.cfg_.trace_open o = true then
          Completion.threw (result, w.thrown (w.env.target.NewWritableFile fname w.fs).2.2)
        else
          Completion.returned
            (((w.env.target.NewWritableFile fname w.fs).1,
              some ⟨fname, (w.env.target.NewWritableFile fname w.fs).2.1, w.env.this_⟩),
             w.traced w.env.cfg_.trace_open o "open_w" fname 0
               (w.env.target.NewWritableFile fname w.fs).1 2
               (w.env.target.NewWritableFile fname w.fs).2.2)
      else
        Completion.returned
          (((w.env.target.NewWritableFile fname w.fs).1, result),
           { w with fs := (w.env.target.NewWritableFile fname w.fs).2.2 }) := by
  unfold TracingEnv.NewWritableFile
  cases hok : (w.env.target.NewWritableFile fname w.fs).1.ok
  · simp [hok]
  · cases hf : w.env.cfg_.trace_open
    · simp [hok, World.traced_false, World.throws_false]
    · simp only [hok, Bool.not_true, Bool.false_eq_true, if_false, if_true]
      rw [World.Trace_traced w o "open_w" fname 0
        (w.env.target.NewWritableFile fname w.fs).1 2 (by decide) (by decide)]
      by_cases ht : w.throws true o = true
      · simp only [ht, if_true]
        rfl
      · simp only [ht, if_false]
        cases hr : decide (0 < w.env.remaining_traces_) <;> simp [World.traced, hr]

/-- Closed form of the open operation: the failure branch, the throw before `*result` is
written, and the success branch. -/
theorem TracingEnv.NewAppendableFile_eq {σ : Type} (fname : String)
    (result : Option (TracingWritableFile σ)) (o : StackOracle) (w : World σ) :
    TracingEnv.NewAppendableFile fname result o w =
      if (w.env.target.NewAppendableFile fname w.fs).1.ok then
        if w.throws w.env.cfg_.trace_open o = true then
          Completion.threw (result, w.thrown (w.env.target.NewAppendableFile fname w.fs).2.2)
        else
          Completion.returned
            (((w.env.target.NewAppendableFile fname w.fs).1,
              some ⟨fname, (w.env.target.NewAppendableFile fname w.fs).2.1, w.env.this_⟩),
             w.traced w.env.cfg_.trace_open o "open_a" fname 0
               (w.env.target.NewAppendableFile fname w.fs).1 2
               (w.env.target.NewAppendableFile fname w.fs).2.2)
      else
        Completion.returned
          (((w.env.target.NewAppendableFile fname w.fs).1, result),
           { w with fs := (w.env.target.NewAppendableFile fname w.fs).2.2 }) := by
  unfold TracingEnv.NewAppendableFile
  cases hok : (w.env.target.NewAppendableFile fname w.fs).1.ok
  · simp [hok]
  · cases hf : w.env.cfg_.trace_open
    · simp [hok, World.traced_false, World.throws_false]
    · simp only [hok, Bool.not_true, Bool.false_eq_true, if_false, if_true]
      rw [World.Trace_traced w o "open_a" fname 0
        (w.env.target.NewAppendableFile fname w.fs).1 2 (by decide) (by decide)]
      by_cases ht : w.throws true o = true
      · simp only [ht, if_true]
        rfl
      · simp only [ht, if_false]
        cases hr : decide (0 < w.env.remaining_traces_) <;> simp [World.traced, hr]

/-! ## Budget accounting of one request -/

/-- The address, delegate and policy of the environment are never modified. -/
theorem World.traced_this {σ : Type} (w : World σ) (flag : Bool) (o : StackOracle)
    (op filename : String) (n : Nat) (status : Status) (skip_frames : Int) (fs : σ) :
    (w.traced flag o op filename n status skip_frames fs).env.this_ = w.env.this_ ∧
    (w.traced flag o op filename n status skip_frames fs).env.target = w.env.target ∧
    (w.traced flag o op filename n status skip_frames fs).env.cfg_ = w.env.cfg_ ∧
    (w.traced flag o op filename n status skip_frames fs).fs = fs := by
  cases flag <;> simp [World.traced]

/-- Policy, counter and number of records after a decorated operation that returned. -/
theorem World.traced_budget {σ : Type} (w : World σ) (flag : Bool) (o : StackOracle)
    (op filename : String) (n : Nat) (status : Status) (skip_frames : Int) (fs : σ) :
    (w.traced flag o op filename n status skip_frames fs).env.cfg_ = w.env.cfg_ ∧
    (w.traced flag o op filename n status skip_frames fs).env.remaining_traces_ =
      (if flag then wrapInt32 (w.env.remaining_traces_ - 1) else w.env.remaining_traces_) ∧
    (w.traced flag o op filename n status skip_frames fs).cerr.length =
      w.cerr.length + (if flag = true ∧ 0 < w.env.remaining_traces_ then 1 else 0) := by
  cases flag
  · simp [World.traced]
  · by_cases h : 0 < w.env.remaining_traces_ <;> simp [World.traced, h]

/-- A request that returns keeps the session consistent and the policy, decrements the counter
exactly when it is trace-eligible, and writes one record exactly when it is eligible and the
counter is positive. -/
theorem Session.step_budget {σ : Type} (S : Session σ) (hS : S.Consistent) (op : Op)
    (o : StackOracle) (out : Outcome) (S' : Session σ)
    (h : S.step op o = Completion.returned (out, S')) :
    S'.Consistent ∧
    S'.world.env.cfg_ = S.world.env.cfg_ ∧
    S'.world.env.remaining_traces_ =
      (if op.eligible S.world.env.cfg_ out.status
        then wrapInt32 (S.world.env.remaining_traces_ - 1)
        else S.world.env.remaining_traces_) ∧
    S'.world.cerr.length = S.world.cerr.length +
      (if op.eligible S.world.env.cfg_ out.status = true ∧ 0 < S.world.env.remaining_traces_
        then 1 else 0) := by
  obtain ⟨c1, c2, c3⟩ := hS
  cases op with
  | NewSequentialFile fname =>
    simp only [Session.step, TracingEnv.NewSequentialFile_eq] at h
    cases hok : (S.world.env.target.NewSequentialFile fname S.world.fs).1.ok
    · simp only [hok, Bool.false_eq_true, if_false, Completion.returned.injEq,
        Prod.mk.injEq] at h
      obtain ⟨h1, h2⟩ := h
      subst h1
      subst h2
      exact ⟨⟨by simpa using c1, by simpa using c2, by simpa using c3⟩,
        by simp [Op.eligible, hok]⟩
    · by_cases ht : S.world.throws S.world.env.cfg_.trace_open o = true
      · simp [hok, ht] at h
      · simp only [hok, ht, if_true, if_false, Bool.false_eq_true, Completion.returned.injEq,
          Prod.mk.injEq] at h
        obtain ⟨h1, h2⟩ := h
        subst h1
        subst h2
        refine ⟨⟨?_, ?_, ?_⟩, ?_⟩
        · intro f hf
          simp only [Option.toList, List.mem_append, List.mem_singleton] at hf
          rcases hf with hf | hf
          · simpa [World.traced_this] using c1 f hf
          · subst hf; simp [World.traced_this]
        · intro f hf; simpa [World.traced_this] using c2 f hf
        · intro f hf; simpa [World.traced_this] using c3 f hf
        · simpa [Op.eligible, hok] using World.traced_budget S.world _ _ _ _ _ _ _ _
  | NewRandomAccessFile fname =>
    simp only [Session.step, TracingEnv.NewRandomAccessFile_eq] at h
    cases hok : (S.world.env.target.NewRandomAccessFile fname S.world.fs).1.ok
    · simp only [hok, Bool.false_eq_true, if_false, Completion.returned.injEq,
        Prod.mk.injEq] at h
      obtain ⟨h1, h2⟩ := h
      subst h1
      subst h2
      exact ⟨⟨by simpa using c1, by simpa using c2, by simpa using c3⟩,
        by simp [Op.eligible, hok]⟩
    · by_cases ht : S.world.throws S.world.env.cfg_.trace_open o = true
      · simp [hok, ht] at h
      · simp only [hok, ht, if_true, if_false, Bool.false_eq_true, Completion.returned.injEq,
          Prod.mk.injEq] at h
        obtain ⟨h1, h2⟩ := h
        subst h1
        subst h2
        refine ⟨⟨?_, ?_, ?_⟩, ?_⟩
        · intro f hf; simpa [World.traced_this] using c1 f hf
        · intro f hf
          simp only [Option.toList, List.mem_append, List.mem_singleton] at hf
          rcases hf with hf | hf
          · simpa [World.traced_this] using c2 f hf
          · subst hf; simp [World.traced_this]
        · intro f hf; simpa [World.traced_this] using c3 f hf
        · simpa [Op.eligible, hok] using World.traced_budget S.world _ _ _ _ _ _ _ _
  | NewWritableFile fname =>
    simp only [Session.step, TracingEnv.NewWritableFile_eq] at h
    cases hok : (S.world.env.target.NewWritableFile fname S.world.fs).1.ok
    · simp only [hok, Bool.false_eq_true, if_false, Completion.returned.injEq,
        Prod.mk.injEq] at h
      obtain ⟨h1, h2⟩ := h
      subst h1
      subst h2
      exact ⟨⟨by simpa using c1, by simpa using c2, by simpa using c3⟩,
        by simp [Op.eligible, hok]⟩
    · by_cases ht : S.world.throws S.world.env.cfg_.trace_open o = true
      · simp [hok, ht] at h
      · simp only [hok, ht, if_true, if_false, Bool.false_eq_true, Completion.returned.injEq,
          Prod.mk.injEq] at h
        obtain ⟨h1, h2⟩ := h
        subst h1
        subst h2
        refine ⟨⟨?_, ?_, ?_⟩, ?_⟩
        · intro f hf; simpa [World.traced_this] using c1 f hf
        · intro f hf; simpa [World.traced_this] using c2 f hf
        · intro f hf
          simp only [Option.toList, List.mem_append, List.mem_singleton] at hf
          rcases hf with hf | hf
          · simpa [World.traced_this] using c3 f hf
          · subst hf; simp [World.traced_this]
        · simpa [Op.eligible, hok] using World.traced_budget S.world _ _ _ _ _ _ _ _
  | NewAppendableFile fname =>
    simp only [Session.step, TracingEnv.NewAppendableFile_eq] at h
    cases hok : (S.world.env.target.NewAppendableFile fname S.world.fs).1.ok
    · simp only [hok, Bool.false_eq_true, if_false, Completion.returned.injEq,
        Prod.mk.injEq] at h
      obtain ⟨h1, h2⟩ := h
      subst h1
      subst h2
      exact ⟨⟨by simpa using c1, by simpa using c2, by simpa using c3⟩,
        by simp [Op.eligible, hok]⟩
    · by_cases ht : S.world.throws S.world.env.cfg_.trace_open o = true
      · simp [hok, ht] at h
      · simp only [hok, ht, if_true, if_false, Bool.false_eq_true, Completion.returned.injEq,
          Prod.mk.injEq] at h
        obtain ⟨h1, h2⟩ := h
        subst h1
        subst h2
        refine ⟨⟨?_, ?_, ?_⟩, ?_⟩
        · intro f hf; simpa [World.traced_this] using c1 f hf
        · intro f hf; simpa [World.traced_this] using c2 f hf
        · intro f hf
          simp only [Option.toList, List.mem_append, List.mem_singleton] at hf
          rcases hf with hf | hf
          · simpa [World.traced_this] using c3 f hf
          · subst hf; simp [World.traced_this]
        · simpa [Op.eligible, hok] using World.traced_budget S.world _ _ _ _ _ _ _ _
  | SeqRead hd n result scratch =>
    simp only [Session.step, List.get?_eq_getElem?] at h
    cases hget : S.seqs[hd]? with
    | none => rw [hget] at h; simp at h
    | some f =>
      rw [hget] at h
      have henv := c1 f (List.getElem?_mem hget)
      obtain ⟨filename, target, env_⟩ := f
      simp only at henv
      subst henv
      cases target with
      | none => simp [TracingSequentialFile.Read] at h
      | some t =>
        simp only [TracingSequentialFile.Read_eq] at h
        by_cases ht : S.world.throws S.world.env.cfg_.trace_reads o = true
        · simp [ht] at h
        · simp only [ht, if_false, Bool.false_eq_true, Completion.returned.injEq,
            Prod.mk.injEq] at h
          obtain ⟨h1, h2⟩ := h
          subst h1
          subst h2
          refine ⟨⟨fun f hf => by simpa [World.traced_this] using c1 f hf,
            fun f hf => by simpa [World.traced_this] using c2 f hf,
            fun f hf => by simpa [World.traced_this] using c3 f hf⟩, ?_⟩
          simpa [Op.eligible] using World.traced_budget S.world _ _ _ _ _ _ _ _
  | SeqSkip hd n =>
    simp only [Session.step, List.get?_eq_getElem?] at h
    cases hget : S.seqs[hd]? with
    | none => rw [hget] at h; simp at h
    | some f =>
      rw [hget] at h
      have henv := c1 f (List.getElem?_mem hget)
      obtain ⟨filename, target, env_⟩ := f
      simp only at henv
      subst henv
      cases target with
      | none => simp [TracingSequentialFile.Skip] at h
      | some t =>
        simp only [TracingSequentialFile.Skip_eq] at h
        by_cases ht : S.world.throws S.world.env.cfg_.trace_reads o = true
        · simp [ht] at h
        · simp only [ht, if_false, Bool.false_eq_true, Completion.returned.injEq,
            Prod.mk.injEq] at h
          obtain ⟨h1, h2⟩ := h
          subst h1
          subst h2
          refine ⟨⟨fun f hf => by simpa [World.traced_this] using c1 f hf,
            fun f hf => by simpa [World.traced_this] using c2 f hf,
            fun f hf => by simpa [World.traced_this] using c3 f hf⟩, ?_⟩
          simpa [Op.eligible] using World.traced_budget S.world _ _ _ _ _ _ _ _
  | RandRead hd offset n result scratch =>
    simp only [Session.step, List.get?_eq_getElem?] at h
    cases hget : S.rands[hd]? with
    | none => rw [hget] at h; simp at h
    | some f =>
      rw [hget] at h
      have henv := c2 f (List.getElem?_mem hget)
      obtain ⟨filename, target, env_⟩ := f
      simp only at henv
      subst henv
      cases target with
      | none => simp [TracingRandomAccessFile.Read] at h
      | some t =>
        simp only [TracingRandomAccessFile.ReadAt_eq] at h
        by_cases ht : S.world.throws S.world.env.cfg_.trace_reads o = true
        · simp [ht] at h
        · simp only [ht, if_false, Bool.false_eq_true, Completion.returned.injEq,
            Prod.mk.injEq] at h
          obtain ⟨h1, h2⟩ := h
          subst h1
          subst h2
          refine ⟨⟨fun f hf => by simpa [World.traced_this] using c1 f hf,
            fun f hf => by simpa [World.traced_this] using c2 f hf,
            fun f hf => by simpa [World.traced_this] using c3 f hf⟩, ?_⟩
          simpa [Op.eligible] using World.traced_budget S.world _ _ _ _ _ _ _ _
  | Append hd data =>
    simp only [Session.step, List.get?_eq_getElem?] at h
    cases hget : S.writables[hd]? with
    | none => rw [hget] at h; simp at h
    | some f =>
      rw [hget] at h
      have henv := c3 f (List.getElem?_mem hget)
      obtain ⟨filename, target, env_⟩ := f
      simp only at henv
      subst henv
      cases target with
      | none => simp [TracingWritableFile.Append] at h
      | some t =>
        simp only [TracingWritableFile.Append_eq] at h
        by_cases ht : S.world.throws S.world.env.cfg_.trace_writes o = true
        · simp [ht] at h
        · simp only [ht, if_false, Bool.false_eq_true, Completion.returned.injEq,
            Prod.mk.injEq] at h
          obtain ⟨h1, h2⟩ := h
          subst h1
          subst h2
          refine ⟨⟨fun f hf => by simpa [World.traced_this] using c1 f hf,
            fun f hf => by simpa [World.traced_this] using c2 f hf,
            fun f hf => by simpa [World.traced_this] using c3 f hf⟩, ?_⟩
          simpa [Op.eligible] using World.traced_budget S.world _ _ _ _ _ _ _ _
  | Close hd =>
    simp only [Session.step, List.get?_eq_getElem?] at h
    cases hget : S.writables[hd]? with
    | none => rw [hget] at h; simp at h
    | some f =>
      rw [hget] at h
      have henv := c3 f (List.getElem?_mem hget)
      obtain ⟨filename, target, env_⟩ := f
      simp only at henv
      subst henv
      cases target with
      | none => simp [TracingWritableFile.Close] at h
      | some t =>
        simp only [TracingWritableFile.Close_eq] at h
        by_cases ht : S.world.throws S.world.env.cfg_.trace_open o = true
        · simp [ht] at h
        · simp only [ht, if_false, Bool.false_eq_true, Completion.returned.injEq,
            Prod.mk.injEq] at h
          obtain ⟨h1, h2⟩ := h
          subst h1
          subst h2
          refine ⟨⟨fun f hf => by simpa [World.traced_this] using c1 f hf,
            fun f hf => by simpa [World.traced_this] using c2 f hf,
            fun f hf => by simpa [World.traced_this] using c3 f hf⟩, ?_⟩
          simpa [Op.eligible] using World.traced_budget S.world _ _ _ _ _ _ _ _
  | Flush hd =>
    simp only [Session.step, List.get?_eq_getElem?] at h
    cases hget : S.writables[hd]? with
    | none => rw [hget] at h; simp at h
    | some f =>
      rw [hget] at h
      have henv := c3 f (List.getElem?_mem hget)
      obtain ⟨filename, target, env_⟩ := f
      simp only at henv
      subst henv
      cases target with
      | none => simp [TracingWritableFile.Flush] at h
      | some t =>
        simp only [TracingWritableFile.Flush_eq] at h
        by_cases ht : S.world.throws S.world.env.cfg_.trace_sync o = true
        · simp [ht] at h
        · simp only [ht, if_false, Bool.false_eq_true, Completion.returned.injEq,
            Prod.mk.injEq] at h
          obtain ⟨h1, h2⟩ := h
          subst h1
          subst h2
          refine ⟨⟨fun f hf => by simpa [World.traced_this] using c1 f hf,
            fun f hf => by simpa [World.traced_this] using c2 f hf,
            fun f hf => by simpa [World.traced_this] using c3 f hf⟩, ?_⟩
          simpa [Op.eligible] using World.traced_budget S.world _ _ _ _ _ _ _ _
  | Sync hd =>
    simp only [Session.step, List.get?_eq_getElem?] at h
    cases hget : S.writables[hd]? with
    | none => rw [hget] at h; simp at h
    | some f =>
      rw [hget] at h
      have henv := c3 f (List.getElem?_mem hget)
      obtain ⟨filename, target, env_⟩ := f
      simp only at henv
      subst henv
      cases target with
      | none => simp [TracingWritableFile.Sync] at h
      | some t =>
        simp only [TracingWritableFile.Sync_eq] at h
        by_cases ht : S.world.throws S.world.env.cfg_.trace_sync o = true
        · simp [ht] at h
        · simp only [ht, if_false, Bool.false_eq_true, Completion.returned.injEq,
            Prod.mk.injEq] at h
          obtain ⟨h1, h2⟩ := h
          subst h1
          subst h2
          refine ⟨⟨fun f hf => by simpa [World.traced_this] using c1 f hf,
            fun f hf => by simpa [World.traced_this] using c2 f hf,
            fun f hf => by simpa [World.traced_this] using c3 f hf⟩, ?_⟩
          simpa [Op.eligible] using World.traced_budget S.world _ _ _ _ _ _ _ _

/-! ## Simulation of the undecorated client -/

/-- A safe request does not throw, whatever the counter. -/
theorem World.throws_of_safe {σ : Type} (w : World σ) (op : Op) (o : StackOracle)
    (h : Op.safe w.env.cfg_ op o = true) : w.throws (Op.flag w.env.cfg_ op) o = false := by
  unfold Op.safe at h
  unfold World.throws
  cases hf : Op.flag w.env.cfg_ op
  · simp
  · cases ha : o.allocates w.env.cfg_.stack_depth
    · have hd : w.env.cfg_.stack_depth ≤ 0 := by simpa [hf, ha] using h
      have : ¬ 0 < w.env.cfg_.stack_depth := by omega
      simp [this]
    · simp

/-- A safe request on a consistent session does what the undecorated request does: same
outcome, and the undecorated client behind the new session is the new undecorated client. -/
theorem Session.step_sim {σ : Type} (S : Session σ) (hS : S.Consistent) (op : Op)
    (o : StackOracle) (hsafe : Op.safe S.world.env.cfg_ op o = true) :
    (S.step op o).result.map (fun r => (r.1, r.2.erase)) = S.erase.step op := by
  have hth := World.throws_of_safe S.world op o hsafe
  obtain ⟨c1, c2, c3⟩ := hS
  cases op with
  | NewSequentialFile fname =>
    simp only [Op.flag] at hth
    simp only [Session.step, PlainSession.step, TracingEnv.NewSequentialFile_eq, hth, Session.erase]
    cases hok : (S.world.env.target.NewSequentialFile fname S.world.fs).1.ok
    · simp [Completion.result]
    · simp [Completion.result, World.traced_this]
  | NewRandomAccessFile fname =>
    simp only [Op.flag] at hth
    simp only [Session.step, PlainSession.step, TracingEnv.NewRandomAccessFile_eq, hth, Session.erase]
    cases hok : (S.world.env.target.NewRandomAccessFile fname S.world.fs).1.ok
    · simp [Completion.result]
    · simp [Completion.result, World.traced_this]
  | NewWritableFile fname =>
    simp only [Op.flag] at hth
    simp only [Session.step, PlainSession.step, TracingEnv.NewWritableFile_eq, hth, Session.erase]
    cases hok : (S.world.env.target.NewWritableFile fname S.world.fs).1.ok
    · simp [Completion.result]
    · simp [Completion.result, World.traced_this]
  | NewAppendableFile fname =>
    simp only [Op.flag] at hth
    simp only [Session.step, PlainSession.step, TracingEnv.NewAppendableFile_eq, hth, Session.erase]
    cases hok : (S.world.env.target.NewAppendableFile fname S.world.fs).1.ok
    · simp [Completion.result]
    · simp [Completion.result, World.traced_this]
  | SeqRead hd n result scratch =>
    simp only [Op.flag] at hth
    simp only [Session.step, PlainSession.step, Session.erase, List.get?_eq_getElem?,
      List.getElem?_map]
    cases hget : S.seqs[hd]? with
    | none => simp [Completion.result]
    | some f =>
      have henv := c1 f (List.getElem?_mem hget)
      obtain ⟨filename, target, env_⟩ := f
      simp only at henv
      subst henv
      cases target with
      | none => simp [TracingSequentialFile.Read, Completion.result]
      | some t =>
        simp [TracingSequentialFile.Read_eq, hth, Completion.result, Session.erase, World.traced_this]
  | SeqSkip hd n =>
    simp only [Op.flag] at hth
    simp only [Session.step, PlainSession.step, Session.erase, List.get?_eq_getElem?,
      List.getElem?_map]
    cases hget : S.seqs[hd]? with
    | none => simp [Completion.result]
    | some f =>
      have henv := c1 f (List.getElem?_mem hget)
      obtain ⟨filename, target, env_⟩ := f
      simp only at henv
      subst henv
      cases target with
      | none => simp [TracingSequentialFile.Skip, Completion.result]
      | some t =>
        simp [TracingSequentialFile.Skip_eq, hth, Completion.result, Session.erase, World.traced_this]
  | RandRead hd offset n result scratch =>
    simp only [Op.flag] at hth
    simp only [Session.step, PlainSession.step, Session.erase, List.get?_eq_getElem?,
      List.getElem?_map]
    cases hget : S.rands[hd]? with
    | none => simp [Completion.result]
    | some f =>
      have henv := c2 f (List.getElem?_mem hget)
      obtain ⟨filename, target, env_⟩ := f
      simp only at henv
      subst henv
      cases target with
      | none => simp [TracingRandomAccessFile.Read, Completion.result]
      | some t =>
        simp [TracingRandomAccessFile.ReadAt_eq, hth, Completion.result, Session.erase, World.traced_this]
  | Append hd data =>
    simp only [Op.flag] at hth
    simp only [Session.step, PlainSession.step, Session.erase, List.get?_eq_getElem?,
      List.getElem?_map]
    cases hget : S.writables[hd]? with
    | none => simp [Completion.result]
    | some f =>
      have henv := c3 f (List.getElem?_mem hget)
      obtain ⟨filename, target, env_⟩ := f
      simp only at henv
      subst henv
      cases target with
      | none => simp [TracingWritableFile.Append, Completion.result]
      | some t =>
        simp [TracingWritableFile.Append_eq, hth, Completion.result, Session.erase, World.traced_this]
  | Close hd =>
    simp only [Op.flag] at hth
    simp only [Session.step, PlainSession.step, Session.erase, List.get?_eq_getElem?,
      List.getElem?_map]
    cases hget : S.writables[hd]? with
    | none => simp [Completion.result]
    | some f =>
      have henv := c3 f (List.getElem?_mem hget)
      obtain ⟨filename, target, env_⟩ := f
      simp only at henv
      subst henv
      cases target with
      | none => simp [TracingWritableFile.Close, Completion.result]
      | some t =>
        simp [TracingWritableFile.Close_eq, hth, Completion.result, Session.erase, World.traced_this]
  | Flush hd =>
    simp only [Op.flag] at hth
    simp only [Session.step, PlainSession.step, Session.erase, List.get?_eq_getElem?,
      List.getElem?_map]
    cases hget : S.writables[hd]? with
    | none => simp [Completion.result]
    | some f =>
      have henv := c3 f (List.getElem?_mem hget)
      obtain ⟨filename, target, env_⟩ := f
      simp only at henv
      subst henv
      cases target with
      | none => simp [TracingWritableFile.Flush, Completion.result]
      | some t =>
        simp [TracingWritableFile.Flush_eq, hth, Completion.result, Session.erase, World.traced_this]
  | Sync hd =>
    simp only [Op.flag] at hth
    simp only [Session.step, PlainSession.step, Session.erase, List.get?_eq_getElem?,
      List.getElem?_map]
    cases hget : S.writables[hd]? with
    | none => simp [Completion.result]
    | some f =>
      have henv := c3 f (List.getElem?_mem hget)
      obtain ⟨filename, target, env_⟩ := f
      simp only at henv
      subst henv
      cases target with
      | none => simp [TracingWritableFile.Sync, Completion.result]
      | some t =>
        simp [TracingWritableFile.Sync_eq, hth, Completion.result, Session.erase, World.traced_this]

/-- A run of safe requests on a consistent session does what the undecorated run does: it
returns exactly when the undecorated run is defined, with the same outcomes, and the
undecorated client behind the final session is the final undecorated client. -/
theorem Session.run_sim {σ : Type} (prog : List (Op × StackOracle)) :
    ∀ S : Session σ, S.Consistent →
      (∀ x ∈ prog, Op.safe S.world.env.cfg_ x.1 x.2 = true) →
      (Session.run prog S).result.map (fun r => (r.1, r.2.erase)) =
        PlainSession.run (prog.map Prod.fst) S.erase := by
  induction prog with
  | nil => intro S _ _; simp [Session.run, PlainSession.run, Completion.result]
  | cons x rest ih =>
    intro S hS hsafe
    obtain ⟨op, o⟩ := x
    have h1 := Session.step_sim S hS op o (hsafe (op, o) (List.mem_cons_self _ _))
    simp only [Session.run, PlainSession.run, List.map_cons]
    rw [← h1]
    cases hstep : S.step op o with
    | undefined => simp [Completion.result]
    | threw S1 => simp [Completion.result]
    | returned r =>
      obtain ⟨out, S1⟩ := r
      obtain ⟨hc, hcfg, _, _⟩ := Session.step_budget S hS op o out S1 hstep
      have ih1 := ih S1 hc (fun x hx => by
        rw [hcfg]; exact hsafe x (List.mem_cons_of_mem _ hx))
      simp only [Completion.result, Option.map_some']
      rw [← ih1]
      cases Session.run rest S1 with
      | undefined => simp [Completion.result]
      | threw r2 => simp [Completion.result]
      | returned r2 => simp [Completion.result]

/-- Wrappers created around given delegates point back to the environment. -/
theorem Session.attach_consistent {σ : Type} (w : World σ)
    (seqs : List (String × Option (SequentialFile σ)))
    (rands : List (String × Option (RandomAccessFile σ)))
    (writables : List (String × Option (WritableFile σ))) :
    (Session.attach w seqs rands writables).Consistent := by
  refine ⟨?_, ?_, ?_⟩ <;>
  · intro f hf
    simp only [Session.attach, List.mem_map] at hf
    obtain ⟨x, _, rfl⟩ := hf
    rfl

/-- The undecorated client behind `Session.attach` holds the given delegates. -/
theorem Session.attach_erase {σ : Type} (w : World σ)
    (seqs : List (String × Option (SequentialFile σ)))
    (rands : List (String × Option (RandomAccessFile σ)))
    (writables : List (String × Option (WritableFile σ))) :
    (Session.attach w seqs rands writables).erase =
      { target := w.env.target, fs := w.fs, seqs := seqs.map Prod.snd,
        rands := rands.map Prod.snd, writables := writables.map Prod.snd } := by
  simp [Session.attach, Session.erase, List.map_map, Function.comp_def]

/-- Transparency short of the allocation failure.  For every policy, counter and delegate,
a finite sequence of requests none of which can be left by `std::bad_alloc` (each is
untraced, or captures no stack, or gets its frame buffer) returns on the decorated
environment exactly when it is defined on the undecorated delegate, with the same statuses,
the same returned bytes and the same final delegate state. -/
theorem transparency_without_allocation_failure {σ : Type} (w : World σ)
    (seqs : List (String × Option (SequentialFile σ)))
    (rands : List (String × Option (RandomAccessFile σ)))
    (writables : List (String × Option (WritableFile σ)))
    (prog : List (Op × StackOracle))
    (hsafe : ∀ x ∈ prog, Op.safe w.env.cfg_ x.1 x.2 = true) :
    (Session.run prog (Session.attach w seqs rands writables)).result.map
        (fun r => (r.1, r.2.world.fs)) =
      (PlainSession.run (prog.map Prod.fst)
        { target := w.env.target, fs := w.fs, seqs := seqs.map Prod.snd,
          rands := rands.map Prod.snd, writables := writables.map Prod.snd }).map
        (fun r => (r.1, r.2.fs)) := by
  have h := Session.run_sim prog (Session.attach w seqs rands writables)
    (Session.attach_consistent w seqs rands writables) hsafe
  rw [Session.attach_erase] at h
  rw [← h, Option.map_map]
  cases (Session.run prog (Session.attach w seqs rands writables)).result with
  | none => simp
  | some r => simp [Session.erase]

/-! ## The trace budget -/

/-- Decrementing one by one and decrementing at once wrap to the same value. -/
theorem wrapInt32_pred (x : Int) (j : Nat) :
    wrapInt32 (wrapInt32 (x - 1) - j) = wrapInt32 (x - (j + 1)) := by
  unfold wrapInt32
  omega

/-- The flag returned by call number `j + 1` of `ShouldTrace`: whether the counter, after `j`
wrapping decrements, is positive. -/
theorem TracingEnv.shouldTraceCalls_getElem? {σ : Type} (n : Nat) :
    ∀ (e : TracingEnv σ) (j : Nat), j < n →
      (TracingEnv.shouldTraceCalls n e).1[j]? =
        some (decide (0 < (if j = 0 then e.remaining_traces_
          else wrapInt32 (e.remaining_traces_ - j)))) := by
  induction n with
  | zero => intro e j h; omega
  | succ n ih =>
    intro e j h
    cases j with
    | zero => simp [TracingEnv.shouldTraceCalls, TracingEnv.ShouldTrace]
    | succ j =>
      simp only [TracingEnv.shouldTraceCalls, List.getElem?_cons_succ]
      rw [ih _ j (by omega)]
      by_cases hj : j = 0
      · subst hj
        simp [TracingEnv.ShouldTrace]
      · have := wrapInt32_pred e.remaining_traces_ j
        simp only [TracingEnv.ShouldTrace, hj, if_false, Nat.succ_ne_zero, Nat.cast_succ,
          Nat.cast_add, Nat.cast_one, this]

/-- C3 (ShouldTrace permanence), evaluated where it fails.  (a) With
`max_traces = -2147483648` the first call of `ShouldTrace` returns false and
wraps the 32-bit counter to 2147483647, so the second call returns true.
(b) With the default `max_traces = 200`, call number 201 returns false (the
budget is exhausted) and call number 2147483850 returns true again: after
2^31 + 1 refused calls the counter has wrapped to a positive value. -/
theorem should_trace_reenabled_after_wraparound :
    (TracingEnv.shouldTraceCalls 2
        (TracingEnv.new 1 (recordingEnv "missing" okStatus)
          { max_traces := -2147483648 })).1 = [false, true] ∧
    (TracingEnv.shouldTraceCalls 2
        (TracingEnv.new 1 (recordingEnv "missing" okStatus)
          { max_traces := -2147483648 })).2.remaining_traces_ = 2147483646 ∧
    (TracingEnv.shouldTraceCalls 2147483850
        (TracingEnv.new 1 (recordingEnv "missing" okStatus) {})).1[200]? = some false ∧
    (TracingEnv.shouldTraceCalls 2147483850
        (TracingEnv.new 1 (recordingEnv "missing" okStatus) {})).1[2147483849]? =
      some true := by
  refine ⟨by rfl, by rfl, ?_, ?_⟩
  · rw [TracingEnv.shouldTraceCalls_getElem? _ _ _ (by decide)]
    rfl
  · rw [TracingEnv.shouldTraceCalls_getElem? _ _ _ (by decide)]
    rfl

/-- C2 (budget cap), evaluated where it fails.  Policy: the defaults
(`trace_open` and `trace_writes` set) with `max_traces = -2147483648`; requests:
one successful writable open, then one append of two bytes.  Both requests are
trace-eligible, so the claimed number of records is
`min(2, max(-2147483648, 0)) = 0`; the run writes one record, for the append:
the open's `ShouldTrace` call wrapped the counter to 2147483647. -/
theorem budget_cap_broken_by_wraparound :
    (Session.run
        [(Op.NewWritableFile "000001.log", StackOracle.posix sampleWalk),
         (Op.Append 0 [1, 2], StackOracle.posix sampleWalk)]
        (startSession { max_traces := -2147483648 } okStatus)).result.map
      (fun r => (r.2.world.cerr,
        eligibleCount { max_traces := -2147483648 }
          [Op.NewWritableFile "000001.log", Op.Append 0 [1, 2]] r.1,
        r.2.world.env.remaining_traces_)) =
      some (["[leveldb-stack] append file=000001.log n=2 status=OK\n  #00 DBImpl::Write\n"],
        2, 2147483646) ∧
    budgetCap { max_traces := -2147483648 } 2 = 0 := by
  refine ⟨by rfl, by rfl⟩

/-! ## The budget while the counter does not wrap

The two properties that fail at the wrap-around hold for every run that stays
short of it. -/

/-- Records written and final counter of a run that returned, in terms of its number of
eligible requests. -/
theorem Session.run_budget {σ : Type} (prog : List (Op × StackOracle)) :
    ∀ (S : Session σ), S.Consistent → ∀ (outs : List Outcome) (S' : Session σ),
      Session.run prog S = Completion.returned (outs, S') →
      S'.world.cerr.length = S.world.cerr.length +
        emittedCount (eligibleCount S.world.env.cfg_ (prog.map Prod.fst) outs)
          S.world.env.remaining_traces_ ∧
      S'.world.env.remaining_traces_ =
        counterAfter (eligibleCount S.world.env.cfg_ (prog.map Prod.fst) outs)
          S.world.env.remaining_traces_ := by
  induction prog with
  | nil =>
    intro S _ outs S' h
    simp only [Session.run, Completion.returned.injEq, Prod.mk.injEq] at h
    obtain ⟨h1, h2⟩ := h
    subst h1
    subst h2
    simp [eligibleCount, emittedCount, counterAfter]
  | cons x rest ih =>
    intro S hS outs S' h
    obtain ⟨op, o⟩ := x
    simp only [Session.run] at h
    cases hstep : S.step op o with
    | undefined => rw [hstep] at h; simp at h
    | threw S1 => rw [hstep] at h; simp at h
    | returned r =>
      obtain ⟨out, S1⟩ := r
      rw [hstep] at h
      simp only at h
      cases hrun : Session.run rest S1 with
      | undefined => rw [hrun] at h; simp at h
      | threw r2 => rw [hrun] at h; simp at h
      | returned r2 =>
        obtain ⟨rs, S2⟩ := r2
        rw [hrun] at h
        simp only [Completion.returned.injEq, Prod.mk.injEq] at h
        obtain ⟨h1, h2⟩ := h
        subst h1
        subst h2
        obtain ⟨hc, b0, b1, b2⟩ := Session.step_budget S hS op o out S1 hstep
        obtain ⟨i1, i2⟩ := ih S1 hc rs S2 hrun
        rw [b0] at i1 i2
        simp only [List.map_cons, eligibleCount]
        by_cases he : op.eligible S.world.env.cfg_ out.status = true
        · simp only [he, if_true, true_and] at b1 b2 ⊢
          rw [i1, i2, b1, b2, Nat.add_comm 1, emittedCount, counterAfter]
          omega
        · simp only [he, if_false, false_and] at b1 b2 ⊢
          rw [i1, i2, b1, b2]
          simp

/-- Wrapping a 32-bit value leaves it unchanged. -/
theorem wrapInt32_of_isInt32 (x : Int) (h : isInt32 x) : wrapInt32 x = x := by
  unfold isInt32 at h
  unfold wrapInt32
  omega

/-- Short of the wrap-around, `k` eligible requests write `min(k, max(c, 0))` records. -/
theorem emittedCount_eq_min (k : Nat) :
    ∀ c : Int, isInt32 c → (k : Int) ≤ c + 2147483649 →
      (emittedCount k c : Int) = min (k : Int) (max c 0) := by
  induction k with
  | zero => intro c _ _; simp [emittedCount]
  | succ k ih =>
    intro c hc hk
    unfold emittedCount
    unfold isInt32 at hc
    push_cast at hk ⊢
    by_cases hpos : 0 < c
    · have hw : wrapInt32 (c - 1) = c - 1 :=
        wrapInt32_of_isInt32 _ (by unfold isInt32; omega)
      rw [hw, if_pos hpos, ih (c - 1) (by unfold isInt32; omega) (by omega)]
      omega
    · rw [if_neg hpos]
      by_cases hmin : c = -2147483648
      · have hk0 : k = 0 := by omega
        subst hk0
        simp only [emittedCount]
        omega
      · have hw : wrapInt32 (c - 1) = c - 1 :=
          wrapInt32_of_isInt32 _ (by unfold isInt32; omega)
        rw [hw, ih (c - 1) (by unfold isInt32; omega) (by omega)]
        omega

/-- The budget cap short of the wrap-around.  For a run that returned, of a consistent
session whose counter is a 32-bit value `c`, with `k` trace-eligible requests
and `k <= c + 2^31 + 1`, the number of records written is `min(k, max(c, 0))`. -/
theorem budget_cap_without_wraparound {σ : Type} (prog : List (Op × StackOracle))
    (S : Session σ) (hS : S.Consistent) (hc : isInt32 S.world.env.remaining_traces_)
    (outs : List Outcome) (S' : Session σ) (hrun : Session.run prog S = Completion.returned (outs, S'))
    (hk : (eligibleCount S.world.env.cfg_ (prog.map Prod.fst) outs : Int) ≤
      S.world.env.remaining_traces_ + 2147483649) :
    (S'.world.cerr.length : Int) = S.world.cerr.length +
      min (eligibleCount S.world.env.cfg_ (prog.map Prod.fst) outs : Int)
        (max S.world.env.remaining_traces_ 0) := by
  rw [(Session.run_budget prog S hS outs S' hrun).1]
  push_cast
  rw [emittedCount_eq_min _ _ hc hk]

/-- The end-to-end scenario of the specification: with `trace_open` and
`trace_writes` set, `trace_reads` clear, `max_traces = 3` and `stack_depth = 8`,
one open, two appends and one read write exactly three records (open, append,
append) and none for the read. -/
theorem budget_cap_scenario :
    (Session.run
        [(Op.NewWritableFile "000001.log", StackOracle.posix sampleWalk),
         (Op.Append 0 [1, 2], StackOracle.posix sampleWalk),
         (Op.Append 0 [3, 4, 5], StackOracle.posix sampleWalk),
         (Op.NewSequentialFile "CURRENT", StackOracle.posix sampleWalk),
         (Op.SeqRead 0 16 [] [], StackOracle.posix sampleWalk)]
        (startSession { trace_open := true, trace_writes := true, trace_reads := false,
                        max_traces := 3, stack_depth := 8 } okStatus)).result.map
      (fun r => r.2.world.cerr) =
      some ["[leveldb-stack] open_w file=000001.log status=OK\n  #00 Append\n  #01 DBImpl::Write\n",
            "[leveldb-stack] append file=000001.log n=2 status=OK\n  #00 DBImpl::Write\n",
            "[leveldb-stack] append file=000001.log n=3 status=OK\n  #00 DBImpl::Write\n"] := by
  rfl

/-- Permanence short of the wrap-around.  For a 32-bit counter `c` and
`n <= c + 2^31 + 1` successive calls of `ShouldTrace`, call number `j + 1` returns
true exactly when `j < c`; so once a call has returned false every later one
of these calls returns false. -/
theorem should_trace_permanent_without_wraparound {σ : Type} (e : TracingEnv σ) (n : Nat)
    (hc : isInt32 e.remaining_traces_) (hn : (n : Int) ≤ e.remaining_traces_ + 2147483649) :
    (∀ j, j < n →
      (TracingEnv.shouldTraceCalls n e).1[j]? = some (decide ((j : Int) < e.remaining_traces_))) ∧
    (∀ i j, i ≤ j → j < n → (TracingEnv.shouldTraceCalls n e).1[i]? = some false →
      (TracingEnv.shouldTraceCalls n e).1[j]? = some false) := by
  have h1 : ∀ j, j < n →
      (TracingEnv.shouldTraceCalls n e).1[j]? =
        some (decide ((j : Int) < e.remaining_traces_)) := by
    intro j hj
    rw [TracingEnv.shouldTraceCalls_getElem? n e j hj]
    by_cases h0 : j = 0
    · subst h0; simp
    · have hw : wrapInt32 (e.remaining_traces_ - j) = e.remaining_traces_ - j := by
        apply wrapInt32_of_isInt32
        unfold isInt32 at hc ⊢
        omega
      simp only [h0, if_false, hw]
      congr 1
      simp only [decide_eq_decide]
      omega
  refine ⟨h1, ?_⟩
  intro i j hij hj hi
  rw [h1 i (by omega)] at hi
  rw [h1 j hj]
  simp only [Option.some.injEq, decide_eq_false_iff_not, not_lt] at hi ⊢
  omega

/-! ## The stack listing -/

/-- Joining a list of strings: the head, then the join of the tail. -/
theorem String.join_cons_eq (a : String) (l : List String) :
    String.join (a :: l) = a ++ String.join l := by
  apply String.ext
  simp [String.data_join]

/-- The listing, line by line over the positions of the frames. -/
theorem StackTrace.listing_eq_range (cells : List String) :
    ∀ k : Nat, StackTrace.listing k cells =
      String.join ((List.range cells.length).map
        (fun j => StackTrace.frameLine (k + j) (cells.getD j ""))) := by
  induction cells with
  | nil => intro k; rfl
  | cons c cs ih =>
    intro k
    have hc : StackTrace.listing k (c :: cs) =
        StackTrace.frameLine k c ++ StackTrace.listing (k + 1) cs := by
      unfold StackTrace.listing
      rw [List.enumFrom_cons, List.map_cons, String.join_cons_eq]
    rw [hc, ih (k + 1), List.length_cons, List.range_succ_eq_map, List.map_cons,
      String.join_cons_eq, List.map_map]
    congr 2
    apply List.map_congr_left
    intro j _
    simp only [Function.comp, List.getD_cons_succ, Nat.add_zero]
    congr 1
    omega

/-- C8 (capture listing, non-Windows branch).  With `stack_depth > 0`,
`skip_frames >= 0`, a frame walk that was reached (the frame buffer was
allocated) and returned `captured` frames (`0 < captured <= stack_depth`), and
`cells` the texts of the frames (the symbol
array when `symbolize` is set and `backtrace_symbols` succeeded, the rendered
raw addresses when it is clear), `StackTrace::Capture` returns exactly the
concatenation, for `k = 0 .. captured - skip_frames - 1` in that order, of the
lines `"  #" ++ paddedIndex k ++ " " ++ cells[skip_frames + k] ++ "\n"`: indices
start at 00 and are consecutive, the first `skip_frames` frames are omitted,
every listed frame is one of the captured ones, there are
`max(0, captured - skip_frames) <= max(0, stack_depth - skip_frames)` lines, and
the text is empty when `skip_frames >= captured`. -/
theorem capture_lists_frames (cfg : TraceConfig) (skip_frames : Int) (p : ExecinfoWalk)
    (cells : List String) (hdepth : 0 < cfg.stack_depth) (hskip : 0 ≤ skip_frames)
    (hwalk : p.allocates cfg.stack_depth = true)
    (hcap : 0 < p.captured) (hle : p.captured ≤ cfg.stack_depth)
    (hcells : if cfg.symbolize then p.symbols = some cells
      else cells = p.frames.map p.ptrText) :
    (StackTrace.Capture cfg skip_frames (StackOracle.posix p)).result.map (fun c => c.text) =
      some (String.join ((List.range (p.captured - skip_frames).toNat).map
        (fun k => "  #" ++ paddedIndex k ++ " " ++ cells.getD (skip_frames.toNat + k) "" ++
          "\n"))) ∧
    (∀ k, k < (p.captured - skip_frames).toNat →
      skip_frames.toNat + k < p.captured.toNat ∧ skip_frames.toNat + k < cells.length) ∧
    ((p.captured - skip_frames).toNat : Int) = max 0 (p.captured - skip_frames) ∧
    max 0 (p.captured - skip_frames) ≤ max 0 (cfg.stack_depth - skip_frames) ∧
    (p.captured ≤ skip_frames →
      (StackTrace.Capture cfg skip_frames (StackOracle.posix p)).result.map (fun c => c.text) =
        some "") := by
  have hlen : p.captured ≤ (cells.length : Int) := by
    cases hsym : cfg.symbolize
    · simp only [hsym, Bool.false_eq_true, if_false] at hcells
      rw [hcells, List.length_map]; exact p.captured_le
    · simp only [hsym, if_true] at hcells
      exact p.symbols_len cells hcells
  have htext : (StackTrace.Capture cfg skip_frames (StackOracle.posix p)).result.map
      (fun c => c.text) =
      some (StackTrace.listing 0 ((cells.take p.captured.toNat).drop skip_frames.toNat)) := by
    unfold StackTrace.Capture
    rw [if_neg (by omega)]
    simp only
    rw [StackTrace.CapturePosix_text cfg skip_frames p hwalk hskip, if_neg (by omega)]
    cases hsym : cfg.symbolize
    · simp only [hsym, Bool.false_eq_true, if_false] at hcells
      simp [hcells]
    · simp only [hsym, if_true] at hcells
      simp [hcells]
  have hl : ((cells.take p.captured.toNat).drop skip_frames.toNat).length =
      (p.captured - skip_frames).toNat := by
    rw [List.length_drop, List.length_take]; omega
  have hjoin : StackTrace.listing 0 ((cells.take p.captured.toNat).drop skip_frames.toNat) =
      String.join ((List.range (p.captured - skip_frames).toNat).map
        (fun k => "  #" ++ paddedIndex k ++ " " ++ cells.getD (skip_frames.toNat + k) "" ++
          "\n")) := by
    rw [StackTrace.listing_eq_range, hl]
    congr 1
    apply List.map_congr_left
    intro j hj
    rw [List.mem_range] at hj
    have h1 : skip_frames.toNat + j < p.captured.toNat := by omega
    have h2 : skip_frames.toNat + j < cells.length := by omega
    have hget : ((cells.take p.captured.toNat).drop skip_frames.toNat).getD j "" =
        cells.getD (skip_frames.toNat + j) "" := by
      simp only [List.getD_eq_getElem?_getD, List.getElem?_drop, List.getElem?_take, h1,
        if_true]
    simp only [StackTrace.frameLine, Nat.zero_add, hget]
  refine ⟨htext.trans (congrArg some hjoin), ?_, ?_, ?_, ?_⟩
  · intro k hk
    constructor <;> omega
  · omega
  · omega
  · intro hge
    rw [htext]
    have : (cells.take p.captured.toNat).drop skip_frames.toNat = [] := by
      apply List.drop_eq_nil_of_le
      rw [List.length_take]; omega
    rw [this]
    rfl

/-- Witness of C8: with the default policy (depth 64, `symbolize` set), one
skipped frame and a resolved walk of four frames, the capture lists the three
remaining symbols as `#00`, `#01`, `#02`. -/
theorem capture_lists_frames_witness :
    (StackTrace.Capture {} 1 (StackOracle.posix sampleWalk)).result.map (fun c => c.text) =
      some "  #00 Trace\n  #01 Append\n  #02 DBImpl::Write\n" :=
  (capture_lists_frames {} 1 sampleWalk ["Capture", "Trace", "Append", "DBImpl::Write"]
    (by decide) (by decide) (by rfl) (by decide) (by decide) (by rfl)).1.trans (by rfl)

/-! ## The record written by `Trace` -/

/-- The tag line as one concatenation, the `n=` field present when `n` is not zero. -/
theorem TracingEnv.tagLine_eq (op filename : String) (n : Nat) (status : Status) :
    TracingEnv.tagLine op filename n status =
      "[leveldb-stack] " ++ op ++ " file=" ++ filename ++
        (if n = 0 then "" else " n=" ++ toString n) ++ " status=" ++ status.ToString ++ "\n" := by
  unfold TracingEnv.tagLine
  by_cases h : n = 0
  · simp [h]
  · simp [h, String.append_assoc]

/-- C9 (depth-zero short-circuit).  With `stack_depth <= 0`, for every
`skip_frames`, every `symbolize` setting and whatever the stack-walking library
would answer, `StackTrace::Capture` returns the empty string and makes no library
call (no frame walk, no symbol resolution); and `Trace` under such a policy is
defined for every `skip_frames` and, when the counter is positive, appends a
record that is the tag line only: it ends with the newline after the status and
holds no stack line. -/
theorem depth_zero_short_circuit {σ : Type} (cfg : TraceConfig) (h : cfg.stack_depth ≤ 0) :
    (∀ (skip_frames : Int) (o : StackOracle),
      StackTrace.Capture cfg skip_frames o = Completion.returned { text := "", calls := [] }) ∧
    (∀ (e : TracingEnv σ) (cerr : List String) (o : StackOracle) (op filename : String)
        (n : Nat) (status : Status) (skip_frames : Int), e.cfg_ = cfg →
      e.Trace cerr o op filename n status skip_frames =
        Completion.returned
          ({ e with remaining_traces_ := wrapInt32 (e.remaining_traces_ - 1) },
          if 0 < e.remaining_traces_ then
            cerr ++ ["[leveldb-stack] " ++ op ++ " file=" ++ filename ++
              (if n = 0 then "" else " n=" ++ toString n) ++ " status=" ++ status.ToString ++
              "\n"]
          else cerr)) := by
  refine ⟨?_, ?_⟩
  · intro skip_frames o
    unfold StackTrace.Capture
    rw [if_pos h]
  · intro e cerr o op filename n status skip_frames he
    subst he
    unfold TracingEnv.Trace TracingEnv.ShouldTrace
    have hd : ¬ e.cfg_.stack_depth > 0 := by omega
    by_cases hr : 0 < e.remaining_traces_
    · simp [hr, hd, TracingEnv.tagLine_eq]
    · simp [hr]

/-- Witness of C9: with `stack_depth = 0` and `symbolize` set, a capture over a
resolved four-frame stack returns the empty text without any library call, and
a traced append writes the tag line alone. -/
theorem depth_zero_short_circuit_witness :
    StackTrace.Capture { stack_depth := 0 } 3 (StackOracle.posix sampleWalk) =
      Completion.returned { text := "", calls := [] } ∧
    (TracingEnv.new 1 (recordingEnv "missing" okStatus) { stack_depth := 0 }).Trace []
        (StackOracle.posix sampleWalk) "append" "000001.log" 7 okStatus 3 =
      Completion.returned
        ({ this_ := 1, target := recordingEnv "missing" okStatus,
           cfg_ := { stack_depth := 0 }, remaining_traces_ := 199 },
        ["[leveldb-stack] append file=000001.log n=7 status=OK\n"]) :=
  ⟨(@depth_zero_short_circuit (List DelegateCall) { stack_depth := 0 } (by decide)).1 3
      (StackOracle.posix sampleWalk),
    ((depth_zero_short_circuit { stack_depth := 0 } (by decide)).2
      (TracingEnv.new 1 (recordingEnv "missing" okStatus) { stack_depth := 0 }) []
      (StackOracle.posix sampleWalk) "append" "000001.log" 7 okStatus 3 rfl).trans (by rfl)⟩

/-! ## The open operations -/

/-- C5 (open failure propagation).  For each of the four open operations,
whatever the policy and the counter: when the delegate factory returns a
non-OK status, the decorated operation returns that status, leaves `*result` as
it was (no wrapper is constructed or stored), emits nothing and leaves the
environment, hence the counter, unchanged; only the delegate's state moves, as
the delegate call left it. -/
theorem open_failure_is_propagated {σ : Type} (w : World σ) (fname : String)
    (o : StackOracle) :
    (∀ (result : Option (TracingSequentialFile σ)),
      (w.env.target.NewSequentialFile fname w.fs).1.ok = false →
      TracingEnv.NewSequentialFile fname result o w =
        Completion.returned (((w.env.target.NewSequentialFile fname w.fs).1, result),
          { env := w.env, cerr := w.cerr,
            fs := (w.env.target.NewSequentialFile fname w.fs).2.2 })) ∧
    (∀ (result : Option (TracingRandomAccessFile σ)),
      (w.env.target.NewRandomAccessFile fname w.fs).1.ok = false →
      TracingEnv.NewRandomAccessFile fname result o w =
        Completion.returned (((w.env.target.NewRandomAccessFile fname w.fs).1, result),
          { env := w.env, cerr := w.cerr,
            fs := (w.env.target.NewRandomAccessFile fname w.fs).2.2 })) ∧
    (∀ (result : Option (TracingWritableFile σ)),
      (w.env.target.NewWritableFile fname w.fs).1.ok = false →
      TracingEnv.NewWritableFile fname result o w =
        Completion.returned (((w.env.target.NewWritableFile fname w.fs).1, result),
          { env := w.env, cerr := w.cerr,
            fs := (w.env.target.NewWritableFile fname w.fs).2.2 })) ∧
    (∀ (result : Option (TracingWritableFile σ)),
      (w.env.target.NewAppendableFile fname w.fs).1.ok = false →
      TracingEnv.NewAppendableFile fname result o w =
        Completion.returned (((w.env.target.NewAppendableFile fname w.fs).1, result),
          { env := w.env, cerr := w.cerr,
            fs := (w.env.target.NewAppendableFile fname w.fs).2.2 })) := by
  refine ⟨?_, ?_, ?_, ?_⟩
  · intro result h
    simp [TracingEnv.NewSequentialFile_eq, h]
  · intro result h
    simp [TracingEnv.NewRandomAccessFile_eq, h]
  · intro result h
    simp [TracingEnv.NewWritableFile_eq, h]
  · intro result h
    simp [TracingEnv.NewAppendableFile_eq, h]

/-- Witness of C5: opening the file the delegate cannot open, with every
category enabled and budget left, returns the delegate's error, leaves the
null `*result` null, writes nothing and keeps the counter at 200. -/
theorem open_failure_is_propagated_witness :
    (recordingEnv "missing" okStatus).NewSequentialFile "missing" [] =
      (ioError, none, [DelegateCall.NewSequentialFile "missing"]) ∧
    (TracingEnv.NewSequentialFile "missing" none (StackOracle.posix sampleWalk)
        (startWorld {} okStatus)).result.map
      (fun r => (r.1.1, r.1.2.isSome, r.2.cerr, r.2.env.remaining_traces_, r.2.fs)) =
      some (ioError, false, [], 200, [DelegateCall.NewSequentialFile "missing"]) := by
  refine ⟨by rfl, ?_⟩
  have h := (open_failure_is_propagated (startWorld {} okStatus) "missing"
    (StackOracle.posix sampleWalk)).1 none (by rfl)
  rw [h]
  rfl

/-! ## Symbol resolution failure -/

/-- On the non-Windows branch, with `symbolize` set, the frame buffer allocated and at least one
frame walked, a null
`backtrace_symbols` result makes the capture empty, for every `skip_frames`. -/
theorem StackTrace.Capture_symbols_null (cfg : TraceConfig) (skip_frames : Int)
    (p : ExecinfoWalk) (hdepth : 0 < cfg.stack_depth)
    (hwalk : p.allocates cfg.stack_depth = true) (hsym : cfg.symbolize = true)
    (hcap : 0 < p.captured) (hnull : p.symbols = none) :
    StackTrace.Capture cfg skip_frames (StackOracle.posix p) =
      Completion.returned
        { text := "",
          calls := [LibCall.backtrace cfg.stack_depth,
                    LibCall.backtrace_symbols p.captured] } := by
  have h1 : ¬ cfg.stack_depth ≤ 0 := by omega
  have h2 : ¬ p.captured ≤ 0 := by omega
  simp [StackTrace.Capture, StackTrace.CapturePosix, h1, h2, hsym, hnull, hwalk]

/-- C7 (symbol-resolution fallback), evaluated where it fails.  Policy: the
defaults (`stack_depth = 64`, `symbolize = true`); `skip_frames = 0`; the frame
walk obtains four frames and `backtrace_symbols` returns a null pointer.  The
non-Windows branch of `StackTrace::Capture` then returns the empty string
instead of four raw-address lines, although the raw addresses are at hand (the
same walk with `symbolize = false` prints them) and although the Windows branch,
when its symbol and line lookups fail for every frame, does fall back to one
raw-address line per frame. -/
theorem capture_is_empty_when_symbols_are_null :
    StackTrace.Capture {} 0 (StackOracle.posix unresolvedWalk) =
      Completion.returned
        { text := "", calls := [LibCall.backtrace 64, LibCall.backtrace_symbols 4] } ∧
    (StackTrace.Capture { symbolize := false } 0 (StackOracle.posix unresolvedWalk)).result.map
        (fun c => c.text) =
      some "  #00 0x401000\n  #01 0x401100\n  #02 0x402000\n  #03 0x404000\n" ∧
    (StackTrace.Capture {} 0 (StackOracle.win32 unresolvedWalkWin32)).result.map
        (fun c => c.text) =
      some "  #00 0x401000\n  #01 0x401100\n  #02 0x402000\n  #03 0x404000\n" := by
  refine ⟨by rfl, by rfl, by rfl⟩

/-! ## Lines and fields of a record -/

/-- A pattern none of whose characters is the first character of `b` is a prefix of `s ++ b`
exactly when it is a prefix of `s`. -/
theorem isPrefixOf_append_of_head (b : List Char) :
    ∀ (s ps : List Char), (∀ c0, b.head? = some c0 → c0 ∉ ps) →
      ps.isPrefixOf (s ++ b) = ps.isPrefixOf s := by
  intro s
  induction s with
  | nil =>
    intro ps h
    cases ps with
    | nil => simp
    | cons q qs =>
      cases b with
      | nil => simp
      | cons c0 b' =>
        have hq : q ≠ c0 := fun e => h c0 rfl (by simp [e])
        simp [List.isPrefixOf, hq]
  | cons x s' ih =>
    intro ps h
    cases ps with
    | nil => simp
    | cons q qs =>
      have := ih qs (fun c0 hc hm => h c0 hc (List.mem_cons_of_mem _ hm))
      simp [List.isPrefixOf, this]

/-- Occurrences add up over a concatenation whose second part starts with a character that
the pattern holds only, if at all, in first position: no occurrence straddles the two parts. -/
theorem occurrences_append_of_head (pat a b : List Char)
    (hb : ∀ c0, b.head? = some c0 → c0 ∉ pat.tail) :
    occurrences pat (a ++ b) = occurrences pat a + occurrences pat b := by
  induction a with
  | nil => simp [occurrences]
  | cons c a' ih =>
    have hp : pat.isPrefixOf (c :: a' ++ b) = pat.isPrefixOf (c :: a') := by
      cases pat with
      | nil => simp
      | cons p ps =>
        have := isPrefixOf_append_of_head b a' ps hb
        simp [List.isPrefixOf, this]
    have hocc : occurrences pat (c :: a' ++ b) =
        (if pat.isPrefixOf (c :: a' ++ b) then 1 else 0) + occurrences pat (a' ++ b) := rfl
    have hocc2 : occurrences pat (c :: a') =
        (if pat.isPrefixOf (c :: a') then 1 else 0) + occurrences pat a' := rfl
    rw [hocc, hocc2, ih, hp]
    omega

/-- A pattern does not occur in a text that lacks one of its characters. -/
theorem occurrences_eq_zero_of_not_mem (pat text : List Char) (c : Char) (hc : c ∈ pat)
    (h : c ∉ text) : occurrences pat text = 0 := by
  induction text with
  | nil => rfl
  | cons x xs ih =>
    have hx : c ∉ xs := fun hm => h (List.mem_cons_of_mem _ hm)
    have hnp : pat.isPrefixOf (x :: xs) = false := by
      cases hpre : pat.isPrefixOf (x :: xs) with
      | false => rfl
      | true =>
        have hsub := (List.isPrefixOf_iff_prefix.1 hpre).subset hc
        exact absurd hsub h
    simp [occurrences, hnp, ih hx]


/-- No digit character is a newline. -/
theorem digitChar_ne_newline (k : Nat) : Nat.digitChar k ≠ '\n' := by
  by_cases h : k < 16
  · interval_cases k <;> decide
  · have e : Nat.digitChar k = '*' := by
      unfold Nat.digitChar
      repeat' (rw [if_neg (by omega)])
    rw [e]
    decide

/-- No digit character is an equals sign. -/
theorem digitChar_ne_equals (k : Nat) : Nat.digitChar k ≠ '=' := by
  by_cases h : k < 16
  · interval_cases k <;> decide
  · have e : Nat.digitChar k = '*' := by
      unfold Nat.digitChar
      repeat' (rw [if_neg (by omega)])
    rw [e]
    decide

/-- The digit loop adds no character that is not a digit character. -/
theorem toDigitsCore_not_mem (b : Nat) (c : Char) (hc : ∀ k, Nat.digitChar k ≠ c) :
    ∀ (fuel n : Nat) (ds : List Char), c ∉ ds → c ∉ Nat.toDigitsCore b fuel n ds := by
  intro fuel
  induction fuel with
  | zero => intro n ds h; simpa [Nat.toDigitsCore] using h
  | succ fuel ih =>
    intro n ds h
    unfold Nat.toDigitsCore
    have hd : c ∉ Nat.digitChar (n % b) :: ds := by
      simp only [List.mem_cons, not_or]
      exact ⟨fun e => hc _ e.symm, h⟩
    simp only
    split
    · exact hd
    · exact ih _ _ hd

/-- The decimal rendering of a number holds no newline. -/
theorem toString_nat_no_newline (n : Nat) : '\n' ∉ (toString n).data := by
  show '\n' ∉ (Nat.repr n).data
  unfold Nat.repr Nat.toDigits
  exact toDigitsCore_not_mem 10 _ digitChar_ne_newline _ _ _ (by simp)

/-- The decimal rendering of a number holds no equals sign. -/
theorem toString_nat_no_equals (n : Nat) : '=' ∉ (toString n).data := by
  show '=' ∉ (Nat.repr n).data
  unfold Nat.repr Nat.toDigits
  exact toDigitsCore_not_mem 10 _ digitChar_ne_equals _ _ _ (by simp)

/-- The first line of a newline-free text followed by a newline and more text. -/
theorem firstLine_append (a rest : String) (h : '\n' ∉ a.data) :
    firstLine (a ++ "\n" ++ rest) = a := by
  unfold firstLine
  apply String.ext
  simp only [String.data_append]
  have hall : ∀ c ∈ a.data, (c != '\n') = true := by
    intro c hc
    simp only [bne_iff_ne, ne_eq]
    intro e
    exact h (e ▸ hc)
  rw [List.append_assoc, List.takeWhile_append_of_pos hall]
  show a.data ++ List.takeWhile (fun c => c != '\n') ('\n' :: rest.data) = a.data
  simp

/-- The tag line without its newline holds no newline when the operation tag, the filename
and the status text hold none. -/
theorem tagLine_no_newline (op filename text : String) (n : Nat)
    (h1 : '\n' ∉ op.data) (h2 : '\n' ∉ filename.data) (h3 : '\n' ∉ text.data) :
    '\n' ∉ ("[leveldb-stack] " ++ op ++ " file=" ++ filename ++
      (if n = 0 then "" else " n=" ++ toString n) ++ " status=" ++ text).data := by
  have hn := toString_nat_no_newline n
  have l1 : '\n' ∉ "[leveldb-stack] ".data := by decide
  have l2 : '\n' ∉ " file=".data := by decide
  have l3 : '\n' ∉ " n=".data := by decide
  have l4 : '\n' ∉ " status=".data := by decide
  have app : ∀ a b : String, '\n' ∉ a.data → '\n' ∉ b.data →
      '\n' ∉ (a ++ b).data := by
    intro a b ha hb
    simp only [String.data_append, List.mem_append, not_or]
    exact ⟨ha, hb⟩
  have hfield : '\n' ∉ (if n = 0 then "" else " n=" ++ toString n).data := by
    by_cases h0 : n = 0
    · rw [if_pos h0]; decide
    · rw [if_neg h0]; exact app _ _ l3 hn
  exact app _ _ (app _ _ (app _ _ (app _ _ (app _ _ (app _ _ l1 h1) l2) h2) hfield) l4) h3

/-- The `n=` field, when present, holds neither a `file=` nor a `status=`, and what follows it
starts with a space. -/
theorem occurrences_countField (pat : List Char) (n : Nat) (rest : List Char)
    (heq : '=' ∈ pat) (hsp : ' ' ∉ pat.tail)
    (hlit : ∀ X, occurrences pat (" n=".data ++ X) = occurrences pat X)
    (hrest : rest.head? = some ' ') :
    occurrences pat ((if n = 0 then "" else " n=" ++ toString n).data ++ rest) =
      occurrences pat rest := by
  by_cases h0 : n = 0
  · rw [if_pos h0]
    rfl
  · rw [if_neg h0, String.data_append, List.append_assoc, hlit,
      occurrences_append_of_head pat _ rest (fun c0 hc => by
        rw [hrest] at hc
        simp only [Option.some.injEq] at hc
        rw [← hc]; exact hsp),
      occurrences_eq_zero_of_not_mem pat _ '=' heq (toString_nat_no_equals n)]
    omega

/-- The tag line without its newline has exactly one `file=` field when the operation tag, the
filename and the status text hold none. -/
theorem tagLine_one_file_field (op filename text : String) (n : Nat)
    (h1 : fieldCount "file=" op = 0) (h2 : fieldCount "file=" filename = 0)
    (h3 : fieldCount "file=" text = 0) :
    fieldCount "file=" ("[leveldb-stack] " ++ op ++ " file=" ++ filename ++
      (if n = 0 then "" else " n=" ++ toString n) ++ " status=" ++ text) = 1 := by
  unfold fieldCount at h1 h2 h3 ⊢
  have t1 : ∀ X, occurrences "file=".data ("[leveldb-stack] ".data ++ X) =
      occurrences "file=".data X := by
    intro X; simp [occurrences, List.isPrefixOf]
  have t2 : ∀ X, occurrences "file=".data (" file=".data ++ X) =
      1 + occurrences "file=".data X := by
    intro X; simp [occurrences, List.isPrefixOf]
  have t3 : ∀ X, occurrences "file=".data (" n=".data ++ X) = occurrences "file=".data X := by
    intro X; simp [occurrences, List.isPrefixOf]
  have t4 : ∀ X, occurrences "file=".data (" status=".data ++ X) =
      occurrences "file=".data X := by
    intro X; simp [occurrences, List.isPrefixOf]
  have sp : ∀ (X : List Char) (c0 : Char), (' ' :: X).head? = some c0 →
      c0 ∉ "file=".data.tail := by
    intro X c0 hc
    simp only [List.head?_cons, Option.some.injEq] at hc
    rw [← hc]; decide
  have hf : ∀ rest : List Char, rest.head? = some ' ' →
      occurrences "file=".data ((if n = 0 then "" else " n=" ++ toString n).data ++ rest) =
        occurrences "file=".data rest :=
    fun rest hrest => occurrences_countField "file=".data n rest (by decide) (by decide) t3 hrest
  simp only [String.data_append, List.append_assoc]
  rw [t1, occurrences_append_of_head _ op.data, t2,
    occurrences_append_of_head _ filename.data, hf, t4, h1, h2, h3]
  · rfl
  · intro c0 hc
    by_cases h0 : n = 0
    · rw [if_pos h0] at hc; exact sp _ c0 hc
    · rw [if_neg h0] at hc; exact sp _ c0 hc
  · intro c0 hc
    exact sp _ c0 hc

/-- The tag line without its newline has exactly one `status=` field when the operation tag,
the filename and the status text hold none. -/
theorem tagLine_one_status_field (op filename text : String) (n : Nat)
    (h1 : fieldCount "status=" op = 0) (h2 : fieldCount "status=" filename = 0)
    (h3 : fieldCount "status=" text = 0) :
    fieldCount "status=" ("[leveldb-stack] " ++ op ++ " file=" ++ filename ++
      (if n = 0 then "" else " n=" ++ toString n) ++ " status=" ++ text) = 1 := by
  unfold fieldCount at h1 h2 h3 ⊢
  have t1 : ∀ X, occurrences "status=".data ("[leveldb-stack] ".data ++ X) =
      occurrences "status=".data X := by
    intro X; simp [occurrences, List.isPrefixOf]
  have t2 : ∀ X, occurrences "status=".data (" file=".data ++ X) =
      occurrences "status=".data X := by
    intro X; simp [occurrences, List.isPrefixOf]
  have t3 : ∀ X, occurrences "status=".data (" n=".data ++ X) =
      occurrences "status=".data X := by
    intro X; simp [occurrences, List.isPrefixOf]
  have t4 : ∀ X, occurrences "status=".data (" status=".data ++ X) =
      1 + occurrences "status=".data X := by
    intro X; simp [occurrences, List.isPrefixOf]
  have sp : ∀ (X : List Char) (c0 : Char), (' ' :: X).head? = some c0 →
      c0 ∉ "status=".data.tail := by
    intro X c0 hc
    simp only [List.head?_cons, Option.some.injEq] at hc
    rw [← hc]; decide
  have hf : ∀ rest : List Char, rest.head? = some ' ' →
      occurrences "status=".data ((if n = 0 then "" else " n=" ++ toString n).data ++ rest) =
        occurrences "status=".data rest :=
    fun rest hrest =>
      occurrences_countField "status=".data n rest (by decide) (by decide) t3 hrest
  simp only [String.data_append, List.append_assoc]
  rw [t1, occurrences_append_of_head _ op.data, t2,
    occurrences_append_of_head _ filename.data, hf, t4, h1, h2, h3]
  · rfl
  · intro c0 hc
    by_cases h0 : n = 0
    · rw [if_pos h0] at hc; exact sp _ c0 hc
    · rw [if_neg h0] at hc; exact sp _ c0 hc
  · intro c0 hc
    exact sp _ c0 hc

/-- Counterexample to C10 as stated ("every record has exactly one `file=` and
one `status=` field on its first line").  `Trace` copies the filename
verbatim.  A two-byte append to the file named `a file=b status=IO error`
writes a record whose first line holds two `file=` and two `status=` fields;
one to the file named `dir`, newline, `name.log` writes a record whose first
line ends after `dir` and holds no `status=` field. -/
theorem record_field_count_counterexample :
    ((TracingEnv.new 1 (recordingEnv "missing" okStatus) {}).Trace []
        (StackOracle.posix sampleWalk) "append" "a file=b status=IO error" 2 okStatus
        3).result.map
      (fun r => r.2.map (fun record =>
        (firstLine record, fieldCount "file=" (firstLine record),
          fieldCount "status=" (firstLine record)))) =
      some [("[leveldb-stack] append file=a file=b status=IO error n=2 status=OK", 2, 2)] ∧
    ((TracingEnv.new 1 (recordingEnv "missing" okStatus) {}).Trace []
        (StackOracle.posix sampleWalk) "append" "dir\nname.log" 2 okStatus 3).result.map
      (fun r => r.2.map (fun record =>
        (firstLine record, fieldCount "file=" (firstLine record),
          fieldCount "status=" (firstLine record)))) =
      some [("[leveldb-stack] append file=dir", 1, 0)] := by
  refine ⟨by rfl, by rfl⟩

/-- C10 as amended (record shape).  `TracingEnv::Trace(op, filename, n, status,
skip_frames)` with a counter that is not positive returns having appended
nothing.  With a positive counter it appends to the sink, as one write, exactly
`"[leveldb-stack] " ++ op ++ " file=" ++ filename ++ (" n=" ++ decimal n when n
is not 0) ++ " status=" ++ status.ToString() ++ "\n"`, followed by nothing when
`stack_depth <= 0` and by the captured stack text when `stack_depth > 0` and
the capture returns (which it does for `skip_frames` in `0 .. INT_MAX` once its
frame buffer is allocated).  A random-access read that is not left by an
exception is traced under the tag `rand_read(offset=<offset>)` with `n` the
requested length.  Every record starts with the tag and the `n=` field is
present exactly when the byte count is non-zero; the text is copied verbatim,
so when the operation tag, the filename and the status text hold no newline
the first line of the record is the tag line without its newline, and when
they also hold no `file=` (no `status=`) that line has exactly one `file=`
(`status=`) field. -/
theorem trace_record_shape {σ : Type} (e : TracingEnv σ) (cerr : List String)
    (o : StackOracle) (op filename : String) (n : Nat) (status : Status)
    (skip_frames : Int) :
    (¬ 0 < e.remaining_traces_ →
      e.Trace cerr o op filename n status skip_frames =
        Completion.returned
          ({ e with remaining_traces_ := wrapInt32 (e.remaining_traces_ - 1) }, cerr)) ∧
    (0 < e.remaining_traces_ → e.cfg_.stack_depth ≤ 0 →
      e.Trace cerr o op filename n status skip_frames =
        Completion.returned
          ({ e with remaining_traces_ := wrapInt32 (e.remaining_traces_ - 1) },
            cerr ++ ["[leveldb-stack] " ++ op ++ " file=" ++ filename ++
              (if n = 0 then "" else " n=" ++ toString n) ++ " status=" ++
              status.ToString ++ "\n"])) ∧
    (0 < e.remaining_traces_ → 0 < e.cfg_.stack_depth →
      ∀ c, StackTrace.Capture e.cfg_ skip_frames o = Completion.returned c →
      e.Trace cerr o op filename n status skip_frames =
        Completion.returned
          ({ e with remaining_traces_ := wrapInt32 (e.remaining_traces_ - 1) },
            cerr ++ ["[leveldb-stack] " ++ op ++ " file=" ++ filename ++
              (if n = 0 then "" else " n=" ++ toString n) ++ " status=" ++
              status.ToString ++ "\n" ++ c.text])) ∧
    (0 ≤ skip_frames → skip_frames ≤ 2147483647 →
      o.allocates e.cfg_.stack_depth = true →
      ∃ c, StackTrace.Capture e.cfg_ skip_frames o = Completion.returned c) ∧
    (∀ (w : World σ) (t : RandomAccessFile σ) (offset : Nat) (result : Slice)
        (scratch : List Nat), w.throws w.env.cfg_.trace_reads o = false →
      (TracingRandomAccessFile.Read ⟨filename, some t, w.env.this_⟩ offset n result scratch
          o w).result.map (fun r => r.2.cerr) =
        some (if w.env.cfg_.trace_reads = true ∧ 0 < w.env.remaining_traces_ then
          w.cerr ++ ["[leveldb-stack] " ++ ("rand_read(offset=" ++ toString offset ++ ")") ++
            " file=" ++ filename ++ (if n = 0 then "" else " n=" ++ toString n) ++
            " status=" ++ (t.Read offset n result scratch w.fs).1.ToString ++ "\n" ++
            (if 0 < w.env.cfg_.stack_depth then StackTrace.text w.env.cfg_ 3 o else "")]
        else w.cerr)) ∧
    (∀ (stack : String), '\n' ∉ op.data → '\n' ∉ filename.data →
      '\n' ∉ status.ToString.data →
      firstLine ("[leveldb-stack] " ++ op ++ " file=" ++ filename ++
          (if n = 0 then "" else " n=" ++ toString n) ++ " status=" ++ status.ToString ++
          "\n" ++ stack) =
        "[leveldb-stack] " ++ op ++ " file=" ++ filename ++
          (if n = 0 then "" else " n=" ++ toString n) ++ " status=" ++ status.ToString ∧
      (fieldCount "file=" op = 0 → fieldCount "file=" filename = 0 →
        fieldCount "file=" status.ToString = 0 →
        fieldCount "file=" (firstLine ("[leveldb-stack] " ++ op ++ " file=" ++ filename ++
          (if n = 0 then "" else " n=" ++ toString n) ++ " status=" ++ status.ToString ++
          "\n" ++ stack)) = 1) ∧
      (fieldCount "status=" op = 0 → fieldCount "status=" filename = 0 →
        fieldCount "status=" status.ToString = 0 →
        fieldCount "status=" (firstLine ("[leveldb-stack] " ++ op ++ " file=" ++ filename ++
          (if n = 0 then "" else " n=" ++ toString n) ++ " status=" ++ status.ToString ++
          "\n" ++ stack)) = 1)) := by
  refine ⟨?_, ?_, ?_, ?_, ?_, ?_⟩
  · intro hr
    simp [TracingEnv.Trace, TracingEnv.ShouldTrace, hr]
  · intro hr hd
    have hd' : ¬ e.cfg_.stack_depth > 0 := by omega
    simp [TracingEnv.Trace, TracingEnv.ShouldTrace, hr, hd', TracingEnv.tagLine_eq]
  · intro hr hd c hc
    simp [TracingEnv.Trace, TracingEnv.ShouldTrace, hr, hd, hc, TracingEnv.tagLine_eq]
  · intro h0 h1 ha
    exact StackTrace.Capture_returns e.cfg_ skip_frames o h0 h1 (Or.inr ha)
  · intro w t offset result scratch hth
    rw [TracingRandomAccessFile.ReadAt_eq]
    simp only [hth, Bool.false_eq_true, if_false, Completion.result, Option.map_some',
      World.traced, TracingEnv.record, TracingEnv.tagLine_eq]
    by_cases hd : 0 < w.env.cfg_.stack_depth
    · simp [hd]
    · simp [hd]
  · intro stack h1 h2 h3
    have hfl := firstLine_append _ stack
      (tagLine_no_newline op filename status.ToString n h1 h2 h3)
    refine ⟨hfl, ?_, ?_⟩
    · intro f1 f2 f3
      rw [hfl]
      exact tagLine_one_file_field op filename status.ToString n f1 f2 f3
    · intro f1 f2 f3
      rw [hfl]
      exact tagLine_one_status_field op filename status.ToString n f1 f2 f3

/-- Witness of C10 as amended: an exhausted budget appends nothing; with budget
left a two-byte append is recorded as the tag line alone at `stack_depth = 0`
and with the stack listing at the default depth; a 4096-byte random read at
offset 7 is tagged `rand_read(offset=7)`; the first line of that record holds
one `file=` and one `status=` field; and the capture at the default depth
returns. -/
theorem trace_record_shape_witness :
    (TracingEnv.new 1 (recordingEnv "missing" okStatus) { max_traces := 0 }).Trace []
        (StackOracle.posix sampleWalk) "append" "000001.log" 2 okStatus 3 =
      Completion.returned
        ({ this_ := 1, target := recordingEnv "missing" okStatus,
           cfg_ := { max_traces := 0 }, remaining_traces_ := -1 }, []) ∧
    (TracingEnv.new 1 (recordingEnv "missing" okStatus) { stack_depth := 0 }).Trace []
        (StackOracle.posix sampleWalk) "append" "000001.log" 2 okStatus 3 =
      Completion.returned
        ({ this_ := 1, target := recordingEnv "missing" okStatus,
           cfg_ := { stack_depth := 0 }, remaining_traces_ := 199 },
         ["[leveldb-stack] append file=000001.log n=2 status=OK\n"]) ∧
    (TracingEnv.new 1 (recordingEnv "missing" okStatus) {}).Trace []
        (StackOracle.posix sampleWalk) "append" "000001.log" 2 okStatus 3 =
      Completion.returned
        ({ this_ := 1, target := recordingEnv "missing" okStatus,
           cfg_ := {}, remaining_traces_ := 199 },
         ["[leveldb-stack] append file=000001.log n=2 status=OK\n  #00 DBImpl::Write\n"]) ∧
    (TracingRandomAccessFile.Read
        ⟨"000005.ldb", some (recordingRandomAccessFile okStatus [104, 105]), 1⟩ 7 4096 [] []
        (StackOracle.posix sampleWalk) (startWorld {} okStatus)).result.map
      (fun r => r.2.cerr) =
      some ["[leveldb-stack] rand_read(offset=7) file=000005.ldb n=4096 status=OK\n" ++
            "  #00 DBImpl::Write\n"] ∧
    fieldCount "file=" (firstLine
      ("[leveldb-stack] " ++ "rand_read(offset=7)" ++ " file=" ++ "000005.ldb" ++
        (if 4096 = 0 then "" else " n=" ++ toString 4096) ++ " status=" ++
        okStatus.ToString ++ "\n" ++ "  #00 DBImpl::Write\n")) = 1 ∧
    fieldCount "status=" (firstLine
      ("[leveldb-stack] " ++ "rand_read(offset=7)" ++ " file=" ++ "000005.ldb" ++
        (if 4096 = 0 then "" else " n=" ++ toString 4096) ++ " status=" ++
        okStatus.ToString ++ "\n" ++ "  #00 DBImpl::Write\n")) = 1 ∧
    (∃ c, StackTrace.Capture {} 3 (StackOracle.posix sampleWalk) = Completion.returned c) := by
  refine ⟨?_, ?_, ?_, ?_, ?_, ?_, ?_⟩
  · exact (@trace_record_shape (List DelegateCall)
      (TracingEnv.new 1 (recordingEnv "missing" okStatus) { max_traces := 0 }) []
      (StackOracle.posix sampleWalk) "append" "000001.log" 2 okStatus 3).1 (by decide)
  · exact ((@trace_record_shape (List DelegateCall)
      (TracingEnv.new 1 (recordingEnv "missing" okStatus) { stack_depth := 0 }) []
      (StackOracle.posix sampleWalk) "append" "000001.log" 2 okStatus 3).2.1
      (by decide) (by decide)).trans (by rfl)
  · exact ((@trace_record_shape (List DelegateCall)
      (TracingEnv.new 1 (recordingEnv "missing" okStatus) {}) []
      (StackOracle.posix sampleWalk) "append" "000001.log" 2 okStatus 3).2.2.1
      (by decide) (by decide) ⟨"  #00 DBImpl::Write\n",
        [LibCall.backtrace 64, LibCall.backtrace_symbols 4]⟩ (by rfl)).trans (by rfl)
  · exact ((@trace_record_shape (List DelegateCall)
      (TracingEnv.new 1 (recordingEnv "missing" okStatus) {}) []
      (StackOracle.posix sampleWalk) "append" "000005.ldb" 4096 okStatus 3).2.2.2.2.1
      (startWorld {} okStatus) (recordingRandomAccessFile okStatus [104, 105]) 7 [] []
      (by rfl)).trans (by rfl)
  · exact ((@trace_record_shape (List DelegateCall)
      (TracingEnv.new 1 (recordingEnv "missing" okStatus) {}) []
      (StackOracle.posix sampleWalk) "rand_read(offset=7)" "000005.ldb" 4096 okStatus
      3).2.2.2.2.2 "  #00 DBImpl::Write\n" (by decide) (by decide) (by decide)).2.1
      (by rfl) (by rfl) (by rfl)
  · exact ((@trace_record_shape (List DelegateCall)
      (TracingEnv.new 1 (recordingEnv "missing" okStatus) {}) []
      (StackOracle.posix sampleWalk) "rand_read(offset=7)" "000005.ldb" 4096 okStatus
      3).2.2.2.2.2 "  #00 DBImpl::Write\n" (by decide) (by decide) (by decide)).2.2
      (by rfl) (by rfl) (by rfl)
  · exact (@trace_record_shape (List DelegateCall)
      (TracingEnv.new 1 (recordingEnv "missing" okStatus) {}) []
      (StackOracle.posix sampleWalk) "append" "000001.log" 2 okStatus 3).2.2.2.1
      (by decide) (by decide) (by rfl)

/-! ## Allocation failure of the frame buffer

`StackTrace::Capture` constructs `std::vector<void*> frames(stack_depth)` from
the unvalidated `--stack_depth`.  With `stack_depth = 2147483647` the request is
16 GiB; on a machine whose allocator refuses it the constructor throws
`std::bad_alloc`, which nothing catches: the traced operation is left by the
exception after the delegate call and after the counter was decremented,
before anything is written and before its `return`. -/

/-- C1 (transparency), evaluated where it fails.  Policy: the defaults
(`trace_reads` set, budget 200) with `stack_depth = 2147483647`, on a machine
whose allocator refuses the frame buffer.  The delegate's sequential read of
16 bytes returns OK and two bytes; the decorated read calls the delegate once
and is then left by `std::bad_alloc`: it returns no status.  Likewise the
sequence "open, read" returns two OK statuses on the undecorated delegate,
while on the decorated environment the open returns OK and the read is left by
the exception with nothing written and the counter at 199. -/
theorem read_returns_no_status_when_allocation_fails :
    sampleWalk.allocates 2147483647 = false ∧
    (recordingSequentialFile okStatus [104, 105]).Read 16 [] [] [] =
      (okStatus, [104, 105], [104, 105], [DelegateCall.SeqRead 16 [] []]) ∧
    TracingSequentialFile.Read
        ⟨"CURRENT", some (recordingSequentialFile okStatus [104, 105]), 1⟩ 16 [] []
        (StackOracle.posix sampleWalk)
        (startWorld { stack_depth := 2147483647 } okStatus) =
      Completion.threw
        (([104, 105], [104, 105]),
         { env := { this_ := 1, target := recordingEnv "missing" okStatus,
                    cfg_ := { stack_depth := 2147483647 }, remaining_traces_ := 199 }
           cerr := []
           fs := [DelegateCall.SeqRead 16 [] []] }) ∧
    (PlainSession.run [Op.NewSequentialFile "CURRENT", Op.SeqRead 0 16 [] []]
        (startSession { trace_open := false, stack_depth := 2147483647 } okStatus).erase).map
      (fun r => r.1) =
      some [{ status := okStatus, bytes := none },
            { status := okStatus, bytes := some ([104, 105], [104, 105]) }] ∧
    (match Session.run
        [(Op.NewSequentialFile "CURRENT", StackOracle.posix sampleWalk),
         (Op.SeqRead 0 16 [] [], StackOracle.posix sampleWalk)]
        (startSession { trace_open := false, stack_depth := 2147483647 } okStatus) with
      | Completion.threw (outcomes, S) =>
        some (outcomes, S.world.cerr, S.world.env.remaining_traces_)
      | _ => none) =
      some ([{ status := okStatus, bytes := none }], [], 199) := by
  refine ⟨by rfl, by rfl, by rfl, by rfl, by rfl⟩

/-- C4 (category gating), evaluated where it fails.  Policy: the defaults
(`trace_writes` set, budget 200) with `stack_depth = 2147483647`, on a machine
whose allocator refuses the frame buffer.  The flag of `Append` is set and the
counter is positive, yet the append of two bytes emits no record: it is left
by `std::bad_alloc` with the counter at 199 and the sink empty. -/
theorem append_emits_no_record_when_allocation_fails :
    (startWorld { stack_depth := 2147483647 } okStatus).env.cfg_.trace_writes = true ∧
    (startWorld { stack_depth := 2147483647 } okStatus).env.remaining_traces_ = 200 ∧
    TracingWritableFile.Append ⟨"000001.log", some (recordingWritableFile okStatus), 1⟩ [1, 2]
        (StackOracle.posix sampleWalk)
        (startWorld { stack_depth := 2147483647 } okStatus) =
      Completion.threw
        { env := { this_ := 1, target := recordingEnv "missing" okStatus,
                   cfg_ := { stack_depth := 2147483647 }, remaining_traces_ := 199 }
          cerr := []
          fs := [DelegateCall.Append [1, 2]] } := by
  refine ⟨by rfl, by rfl, by rfl⟩

/-- C6 (wrapping is independent of tracing), evaluated where it fails.  Policy:
the defaults (`trace_open` set, budget 200) with `stack_depth = 2147483647`, on a
machine whose allocator refuses the frame buffer.  The delegate factory opens
the writable file and returns OK with a handle; `NewWritableFile` is then left
by `std::bad_alloc` from the trace that precedes `*result = new ...`: no status
is returned, no wrapper is stored and `*result` is still null. -/
theorem open_stores_no_wrapper_when_allocation_fails :
    ((recordingEnv "missing" okStatus).NewWritableFile "000001.log" []).1 = okStatus ∧
    ((recordingEnv "missing" okStatus).NewWritableFile "000001.log" []).2.1.isSome = true ∧
    (match TracingEnv.NewWritableFile "000001.log" none (StackOracle.posix sampleWalk)
        (startWorld { stack_depth := 2147483647 } okStatus) with
      | Completion.threw (result, w) =>
        some (result.isSome, w.cerr, w.env.remaining_traces_, w.fs)
      | _ => none) =
      some (false, [], 199, [DelegateCall.NewWritableFile "000001.log"]) := by
  refine ⟨by rfl, by rfl, by rfl⟩
end leveldb_stacktrace
